import Mathlib

/-!
Verification of the race scoring and league standings engine of the
dcu-member-liga repository, a shallow embedding of
`backend/services/results/race_scorer.py` (class `RaceScorer`) and
`backend/services/results/league_engine.py` (class `LeagueEngine`).

Modelling conventions:
* Python dicts keyed by strings become insertion-ordered association lists
  `List (String × α)`; `setKey` mirrors `d[k] = v` (replace in place or
  append) and `lookupKey` mirrors `d.get(k)`.
* Rider dictionaries become the `Rider` structure; a missing key is the
  field's default, matching the `.get(key, default)` reads in the source.
  `leaguePoints` is `Option Int`, `none` standing for Python `None` or an
  absent key (the source never distinguishes the two).
* Python `list.sort` (Timsort) is a stable sort; it is modelled by
  `List.insertionSort` with a reflexive total preorder, which inserts an
  earlier element before any tied later element and is therefore stable in
  the same sense.
* Machine integers are unbounded in Python, so times and points are `Int`
  with no wrap-around.
* `enumerate` is modelled by `enumL`; object identity of mutated rider
  dicts is modelled by tracking riders by their position in the list.
* `_get_race_datetime` (string/datetime parsing in `league_engine.py`) is
  abstracted: `RaceData.raceDateTime` holds the already-normalized result
  as a comparable `Option Int` timestamp; the claims under study never
  depend on the parsing itself, only on the `race_date >= last_date`
  comparison, which is preserved.
* `_map_segment_efforts` (the raw-Zwift ingestion path, only taken when
  `segment_efforts_map` is passed) is not modelled: every claim concerns
  riders whose `sprintData` is already populated, which is the
  `segment_efforts_map=None` path of `calculate_results`.
-/

namespace DcuLiga

/-- One crossing record stored under a sprint key in a rider's `sprintData`:
the dict `{time, worldTime, avgPower}` written by `_map_segment_efforts`,
plus the `rank` field that `_calculate_sprint_points` adds (modelled as a
field defaulting to 0, matching `data.get('rank', 0)` style reads). -/
structure SprintEntry where
  time : Int := 0
  worldTime : Int := 0
  avgPower : Int := 0
  rank : Int := 0
deriving DecidableEq

/-- A rider result dictionary, as produced and consumed by
`RaceScorer.calculate_results`.  `zwiftId` is the `str()` image of the
rider's id (the source normalises with `str(...)` at every use). -/
structure Rider where
  zwiftId : String
  name : String := ""
  finishTime : Int := 0
  finishRank : Int := 0
  finishPoints : Int := 0
  sprintPoints : Int := 0
  totalPoints : Int := 0
  leaguePoints : Option Int := none
  sprintData : List (String × SprintEntry) := []
  sprintDetails : List (String × Int) := []
  disqualified : Bool := false
  declassified : Bool := false
deriving DecidableEq

/-- A sprint/segment configuration entry (`race_config['sprints']`). -/
structure SprintConfig where
  id : String
  count : Int := 0
  key : Option String := none
  type : Option String := none
deriving DecidableEq

/-- Per-category configuration entry (elements of `eventConfiguration`
or `singleModeCategories`). -/
structure CategoryConfig where
  customCategory : Option String := none
  category : Option String := none
  sprints : List SprintConfig := []
  segmentType : Option String := none
deriving DecidableEq

/-- A race document as consumed by the scorer and the league engine.
Field defaults model the `.get(key, default)` reads of the source
(`type` defaults to `'scratch'`, `segmentType` to `'sprint'`).
`raceDateTime` abstracts `_get_race_datetime` (see the file header). -/
structure RaceData where
  id : String := ""
  rtype : String := "scratch"
  segmentType : String := "sprint"
  manualDQs : List String := []
  manualDeclassifications : List String := []
  manualExclusions : List String := []
  sprints : List SprintConfig := []
  eventMode : Option String := none
  eventConfiguration : List CategoryConfig := []
  singleModeCategories : List CategoryConfig := []
  results : List (String × List Rider) := []
  raceDateTime : Option Int := none
deriving DecidableEq

/-- League settings consumed by `LeagueEngine.__init__`
(`bestRacesCount` defaults to 5, schemes to `[]`). -/
structure LeagueSettings where
  bestRacesCount : Int := 5
  finishPoints : List Int := []
  leagueRankPoints : List Int := []
deriving DecidableEq

/-- A per-rider standings ledger entry built by
`LeagueEngine.calculate_standings`. -/
structure StandingsEntry where
  zwiftId : String
  name : String := ""
  totalPoints : Int := 0
  raceCount : Int := 0
  results : List (String × Int) := []
  lastRacePoints : Int := 0
  lastRaceDate : Option Int := none
deriving DecidableEq

/-- The scorer's two configured schemes (`RaceScorer.__init__`). -/
structure RaceScorer where
  finishPointsScheme : List Int := []
  sprintPointsScheme : List Int := []
deriving DecidableEq

/-! ### Dict and enumerate helpers -/

/-- `d.get(k)` on an insertion-ordered dict. -/
def lookupKey (k : String) : List (String × α) → Option α
  | [] => none
  | (k', v) :: rest => if k' = k then some v else lookupKey k rest

/-- `d[k] = v` on an insertion-ordered dict: replace in place, else append. -/
def setKey (k : String) (v : α) : List (String × α) → List (String × α)
  | [] => [(k, v)]
  | (k', v') :: rest => if k' = k then (k, v) :: rest else (k', v') :: setKey k v rest

/-- Lookup in a list of index-keyed assignments. -/
def lookupNat (i : Nat) : List (Nat × α) → Option α
  | [] => none
  | (j, v) :: rest => if j = i then some v else lookupNat i rest

/-- `enumerate(l, start=n)`. -/
def enumFromN (n : Nat) : List α → List (Nat × α)
  | [] => []
  | a :: l => (n, a) :: enumFromN (n + 1) l

/-- `enumerate(l)`. -/
def enumL (l : List α) : List (Nat × α) := enumFromN 0 l

/-- Python list slicing `l[:n]`, including the negative-`n` case
(`l[:-2]` drops the last two elements). -/
def pySliceTo (n : Int) (l : List α) : List α :=
  if 0 ≤ n then l.take n.toNat else l.take ((l.length : Int) + n).toNat

/-! ### Sprint key and segment type resolution -/

/-- `s.get('key') or f"{s['id']}_{s['count']}"`: a missing *or empty*
key falls back to the derived key. -/
def sprintKeyOf (s : SprintConfig) : String :=
  match s.key with
  | some k => if k = "" then s.id ++ "_" ++ toString s.count else k
  | none => s.id ++ "_" ++ toString s.count

/-- `o or d` on an optional string: `None` and `""` both fall back. -/
def orDefaultStr (o : Option String) (d : String) : String :=
  match o with
  | some s => if s = "" then d else s
  | none => d

/-- `sprint_type_map[k] = s.get('type') or global_type` built by
`_calculate_sprint_points`. -/
def sprintTypeMap (cfg : RaceData) : List (String × String) :=
  cfg.sprints.foldl (fun m s => setKey (sprintKeyOf s) (orDefaultStr s.type cfg.segmentType) m) []

/-- `sprint_type_map.get(key, global_type)`. -/
def segTypeFor (cfg : RaceData) (key : String) : String :=
  (lookupKey key (sprintTypeMap cfg)).getD cfg.segmentType

/-- The set of sprint keys present in any rider's `sprintData`
(`all_keys` in `_calculate_sprint_points`); iteration order over a Python
set is irrelevant to the computed values, so a deduplicated list is used. -/
def allSprintKeys (riders : List Rider) : List String :=
  ((riders.map (fun r => r.sprintData.map Prod.fst)).flatten).dedup

/-! ### RaceScorer.calculate_results -/

/-- The DNF sentinel `999999999999` used as sort key for `finishTime == 0`. -/
def dnfSentinel : Int := 999999999999

/-- The finish sort key: `x.get('finishTime', 0) if > 0 else 999999999999`. -/
def finishKey (r : Rider) : Int :=
  if 0 < r.finishTime then r.finishTime else dnfSentinel

/-- A rider classified neither DQ nor declassified. -/
def isValidR (r : Rider) : Bool := !r.disqualified && !r.declassified

/-- Step 2 of `calculate_results`: reset the calculation fields and
classify by the manual sets (DQ takes precedence). -/
def resetRider (dqs dcl : List String) (r : Rider) : Rider :=
  let r0 : Rider :=
    { r with disqualified := false, declassified := false,
             finishRank := 0, finishPoints := 0, sprintPoints := 0 }
  if dqs.contains r.zwiftId then { r0 with disqualified := true, finishRank := 9999 }
  else if dcl.contains r.zwiftId then { r0 with declassified := true }
  else r0

/-- Sort relation for the valid-rider finish sort (stable, ascending on
`finishKey`); elements are tagged with their position in the active list. -/
def finishLe (a b : Nat × Rider) : Prop := finishKey a.2 ≤ finishKey b.2

instance : DecidableRel finishLe :=
  fun a b => inferInstanceAs (Decidable (finishKey a.2 ≤ finishKey b.2))

instance : IsTotal (Nat × Rider) finishLe := ⟨fun a b => Int.le_total _ _⟩

instance : IsTrans (Nat × Rider) finishLe := ⟨fun _ _ _ h1 h2 => le_trans h1 h2⟩

/-- The per-position (rank, points) assignments of step 3 of
`calculate_results`, computed over the sorted valid riders. -/
def finishAssigns (scheme : List Int) (sorted : List (Nat × Rider)) : List (Nat × Int × Int) :=
  (enumL sorted).map (fun q =>
    if 0 < q.2.2.finishTime then (q.2.1, ((q.1 : Int) + 1, scheme.getD q.1 0))
    else (q.2.1, (0, 0)))

/-- `last_valid_rank`: the number of valid (non-DQ, non-declassified)
riders with a positive finish time. -/
def lastValidRank (l : List Rider) : Nat :=
  (l.filter (fun r => isValidR r && decide (0 < r.finishTime))).length

/-- Steps 3 of `calculate_results`: sort the valid riders by finish
time (DNF last), assign `finishRank`/`finishPoints` by sorted position,
give every declassified rider the last-place rank and points, and leave
DQ riders at the reset values (`finishRank = 9999`, 0 points). -/
def assignFinish (scheme : List Int) (l : List Rider) : List Rider :=
  let validIdx := (enumL l).filter (fun p => isValidR p.2)
  let sorted := List.insertionSort finishLe validIdx
  let assigns := finishAssigns scheme sorted
  let lastPlacePoints := scheme.getD (lastValidRank l) 0
  (enumL l).map (fun p =>
    if p.2.declassified then
      { p.2 with finishRank := (lastValidRank l : Int) + 1, finishPoints := lastPlacePoints }
    else if p.2.disqualified then p.2
    else
      match lookupNat p.1 assigns with
      | some rp => { p.2 with finishRank := rp.1, finishPoints := rp.2 }
      | none => p.2)

/-- The efforts collected for one sprint key: position in the rider list,
`zwiftId` and the stored crossing entry. -/
def collectEfforts (key : String) (l : List Rider) : List (Nat × String × SprintEntry) :=
  (enumL l).filterMap (fun p =>
    (lookupKey key p.2.sprintData).map (fun e => (p.1, p.2.zwiftId, e)))

/-- Effort sort relation: `worldTime` ascending (first across the line). -/
def effortLe (a b : Nat × String × SprintEntry) : Prop :=
  a.2.2.worldTime ≤ b.2.2.worldTime

instance : DecidableRel effortLe :=
  fun a b => inferInstanceAs (Decidable (a.2.2.worldTime ≤ b.2.2.worldTime))

instance : IsTotal (Nat × String × SprintEntry) effortLe := ⟨fun a b => Int.le_total _ _⟩

instance : IsTrans (Nat × String × SprintEntry) effortLe := ⟨fun _ _ _ h1 h2 => le_trans h1 h2⟩

/-- The rank/points assignment loop of `_calculate_sprint_points`:
a valid rider consumes the next rank and (for `sprint` segments) the next
scheme slot; an invalid (DQ or declassified) rider gets rank 0 and no
points and consumes nothing. -/
def assignEfforts (scheme : List Int) (isSplit : Bool) (dqs dcl : List String) :
    Int → Nat → List (Nat × String × SprintEntry) → List (Nat × Int × Int)
  | _, _, [] => []
  | rc, pi, (i, z, _) :: rest =>
    if !(dqs.contains z) && !(dcl.contains z) then
      if !isSplit && decide (pi < scheme.length) then
        (i, rc, scheme.getD pi 0) :: assignEfforts scheme isSplit dqs dcl (rc + 1) (pi + 1) rest
      else
        (i, rc, 0) :: assignEfforts scheme isSplit dqs dcl (rc + 1) pi rest
    else
      (i, 0, 0) :: assignEfforts scheme isSplit dqs dcl rc pi rest

/-- Write one key's assignment back onto a rider: set
`sprintData[key]['rank']`; for a `split` store the crossing `worldTime` in
`sprintDetails`, for a `sprint` store and add the points only when
positive. -/
def applySprintUpdate (key : String) (isSplit : Bool) (assigns : List (Nat × Int × Int))
    (i : Nat) (r : Rider) : Rider :=
  match lookupNat i assigns with
  | none => r
  | some rp =>
    let r1 : Rider :=
      match lookupKey key r.sprintData with
      | some e => { r with sprintData := setKey key { e with rank := rp.1 } r.sprintData }
      | none => r
    if isSplit then
      match lookupKey key r.sprintData with
      | some e => { r1 with sprintDetails := setKey key e.worldTime r1.sprintDetails }
      | none => r1
    else
      if 0 < rp.2 then
        { r1 with sprintDetails := setKey key rp.2 r1.sprintDetails,
                  sprintPoints := r1.sprintPoints + rp.2 }
      else r1

/-- Process one sprint key of `_calculate_sprint_points`. -/
def calcKeyStep (scheme : List Int) (cfg : RaceData) (dqs dcl : List String)
    (l : List Rider) (key : String) : List Rider :=
  let isSplit := segTypeFor cfg key == "split"
  let efforts := List.insertionSort effortLe (collectEfforts key l)
  let assigns := assignEfforts scheme isSplit dqs dcl 1 0 efforts
  (enumL l).map (fun p => applySprintUpdate key isSplit assigns p.1 p.2)

/-- `RaceScorer._calculate_sprint_points`. -/
def calcSprintPoints (scheme : List Int) (cfg : RaceData) (dqs dcl : List String)
    (l : List Rider) : List Rider :=
  (allSprintKeys l).foldl (calcKeyStep scheme cfg dqs dcl) l

/-- The final sort key `(totalPoints, -ft_key)` with `reverse=True`:
`a` may precede `b` iff `a`'s key tuple is lexicographically ≥ `b`'s. -/
def finalGe (a b : Rider) : Prop :=
  b.totalPoints < a.totalPoints ∨
    (a.totalPoints = b.totalPoints ∧ -(finishKey b) ≤ -(finishKey a))

instance : DecidableRel finalGe :=
  fun a b => inferInstanceAs (Decidable (_ ∨ _))

/-- `RaceScorer.calculate_results` (the `segment_efforts_map=None` path;
see the file header). -/
def calculateResults (sc : RaceScorer) (riders : List Rider) (cfg : RaceData) : List Rider :=
  let dqs := cfg.manualDQs
  let dcl := cfg.manualDeclassifications
  let exc := cfg.manualExclusions
  let active := riders.filter (fun r => !(exc.contains r.zwiftId))
  let classified := active.map (resetRider dqs dcl)
  let withFinish := assignFinish sc.finishPointsScheme classified
  let afterSprints := calcSprintPoints sc.sprintPointsScheme cfg dqs dcl withFinish
  let totaled := afterSprints.map
    (fun r => { r with totalPoints := r.finishPoints + r.sprintPoints })
  List.insertionSort finalGe totaled

/-! ### RaceScorer.calculate_league_points -/

/-- Lexicographic ≥ on triples of ints (descending three-component sort). -/
def lexGe3 (p q : Int × Int × Int) : Prop :=
  q.1 < p.1 ∨ (p.1 = q.1 ∧ (q.2.1 < p.2.1 ∨ (p.2.1 = q.2.1 ∧ q.2.2 ≤ p.2.2)))

instance : DecidableRel lexGe3 :=
  fun p q => inferInstanceAs (Decidable (_ ∨ _))

/-- The points/scratch league ranking key
`(0 if declassified else 1, totalPoints, -finishRank)`, sorted with
`reverse=True`. -/
def rank3Key (q : α × Int × Int × Bool) : Int × Int × Int :=
  (if q.2.2.2 then 0 else 1, q.2.1, -q.2.2.1)

/-- Sort relation for the points/scratch league ranking (stable
descending on `rank3Key`). -/
def rank3Ge (a b : α × Int × Int × Bool) : Prop := lexGe3 (rank3Key a) (rank3Key b)

instance : DecidableRel (rank3Ge (α := α)) :=
  fun a b => inferInstanceAs (Decidable (lexGe3 _ _))

/-- The adjusted finish rank used as tie-break:
`finishRank if > 0 else 9999999`. -/
def adjFinishRank (r : Rider) : Int :=
  if 0 < r.finishRank then r.finishRank else 9999999

/-- The per-rider `leaguePoints` marking of the rider loop of
`_calculate_points_race_league_points`: excluded → `None`, DQ → 0,
no activity → `None`, candidates are left untouched (the ranking loop
assigns them afterwards). -/
def markRiderPoints (dqs exc : List String) (r : Rider) : Rider :=
  if exc.contains r.zwiftId then { r with leaguePoints := none }
  else if dqs.contains r.zwiftId then { r with leaguePoints := some 0 }
  else if !(decide (0 < r.finishTime)) && !(decide (0 < r.totalPoints))
          && r.sprintData.isEmpty then
    { r with leaguePoints := none }
  else r

/-- The candidate record built by `_calculate_points_race_league_points`
(tagged with the rider's position in the list, standing for the object
reference kept in `ranking_data`). -/
def candPoints (dqs dcl exc : List String) (p : Nat × Rider) :
    Option (Nat × Int × Int × Bool) :=
  if exc.contains p.2.zwiftId || dqs.contains p.2.zwiftId then none
  else if decide (0 < p.2.finishTime) || decide (0 < p.2.totalPoints)
          || !p.2.sprintData.isEmpty then
    some (p.1, p.2.totalPoints, adjFinishRank p.2, dcl.contains p.2.zwiftId)
  else none

/-- The in-place `leaguePoints` assignment loop shared by the scorer's
ranking paths: the rider at list position `i` receives the points
assigned to `i`; everyone else keeps the marked value. -/
def assignByIdx (marked : List Rider) (assigns : List (Nat × Int)) : List Rider :=
  (enumL marked).map (fun p =>
    match lookupNat p.1 assigns with
    | some pts => { p.2 with leaguePoints := some pts }
    | none => p.2)

/-- `RaceScorer._calculate_points_race_league_points`: candidates and
sort, then in-place `leaguePoints` assignment by ranking position. -/
def scorerPointsRaceLP (riders : List Rider) (lrp : List Int)
    (dqs dcl exc : List String) : List Rider :=
  let marked := riders.map (markRiderPoints dqs exc)
  let cands := (enumL riders).filterMap (candPoints dqs dcl exc)
  let sorted := List.insertionSort rank3Ge cands
  let assigns : List (Nat × Int) := (enumL sorted).map (fun q => (q.2.1, lrp.getD q.1 0))
  assignByIdx marked assigns

/-- The candidate key lists `[s.get('key'), f"{id}_{count}", str(id)]`
scanned by `get_furthest_segment`; the `if key and …` check is modelled
by dropping falsy (`None`/empty) keys. -/
def candKeys (s : SprintConfig) : List String :=
  (match s.key with
   | some k => if k = "" then [] else [k]
   | none => []) ++ [s.id ++ "_" ++ toString s.count, s.id]

/-- First candidate key present in `sprintData` with `worldTime > 0`. -/
def firstPosTime (sprintData : List (String × SprintEntry)) : List String → Option Int
  | [] => none
  | k :: rest =>
    if k = "" then firstPosTime sprintData rest
    else
      match lookupKey k sprintData with
      | some e => if 0 < e.worldTime then some e.worldTime else firstPosTime sprintData rest
      | none => firstPosTime sprintData rest

/-- Scan the ordered splits backwards for the last one crossed. -/
def furthestAux (sprintData : List (String × SprintEntry)) :
    List (Nat × SprintConfig) → Option (Nat × Int)
  | [] => none
  | (i, s) :: rest =>
    match firstPosTime sprintData (candKeys s) with
    | some wt => some (i, wt)
    | none => furthestAux sprintData rest

/-- `get_furthest_segment`: `None` for an empty `sprintData`, else the
(index, worldTime) of the furthest split crossed with a positive time. -/
def getFurthest (splits : List SprintConfig) (r : Rider) : Option (Nat × Int) :=
  if r.sprintData.isEmpty then none
  else furthestAux r.sprintData (enumL splits).reverse

/-- A time-trial ranking record: position tag, `hasFinished`,
`finishTime`, furthest segment index (−1 when none) and its `worldTime`,
`isDeclassified`.  The `float('inf')` placeholder for finishers is never
compared by the sort key, so it is modelled as 0. -/
def ttRecord (dcl : List String) (p : α × Rider) (furthest : Option (Nat × Int)) :
    α × Bool × Int × Int × Int × Bool :=
  (p.1, decide (0 < p.2.finishTime), p.2.finishTime,
   (furthest.map (fun f => (f.1 : Int))).getD (-1),
   (furthest.map Prod.snd).getD 0,
   dcl.contains p.2.zwiftId)

/-- The five-component ascending time-trial sort key:
`(declassified, finished-first, finishTime, -segmentIndex, worldTime)`. -/
def ttKey (q : α × Bool × Int × Int × Int × Bool) : Int × Int × Int × Int × Int :=
  if q.2.1 then ((if q.2.2.2.2.2 then 1 else 0), 0, q.2.2.1, 0, 0)
  else ((if q.2.2.2.2.2 then 1 else 0), 1, 0, -q.2.2.2.1, q.2.2.2.2.1)

/-- Lexicographic ≤ on quintuples of ints. -/
def lexLe5 (p q : Int × Int × Int × Int × Int) : Prop :=
  p.1 < q.1 ∨ (p.1 = q.1 ∧ (p.2.1 < q.2.1 ∨ (p.2.1 = q.2.1 ∧
    (p.2.2.1 < q.2.2.1 ∨ (p.2.2.1 = q.2.2.1 ∧ (p.2.2.2.1 < q.2.2.2.1 ∨
      (p.2.2.2.1 = q.2.2.2.1 ∧ p.2.2.2.2 ≤ q.2.2.2.2)))))))

instance : Decidable (lexLe5 p q) := inferInstanceAs (Decidable (_ ∨ _))

/-- Stable ascending sort relation on time-trial records. -/
def ttLe (a b : α × Bool × Int × Int × Int × Bool) : Prop := lexLe5 (ttKey a) (ttKey b)

instance : DecidableRel (ttLe (α := α)) :=
  fun a b => inferInstanceAs (Decidable (lexLe5 _ _))

/-- The splits used by `RaceScorer._calculate_time_trial_league_points`:
filter to `split` type (all sprints when the global type is `split`) and
sort by `(count, key or '')`. -/
def splitLe (a b : SprintConfig) : Prop :=
  a.count < b.count ∨ (a.count = b.count ∧ a.key.getD "" ≤ b.key.getD "")

instance : DecidableRel splitLe :=
  fun a b => inferInstanceAs (Decidable (_ ∨ _))

def scorerTTSplits (cfg : RaceData) : List SprintConfig :=
  let base := if cfg.segmentType = "split" then cfg.sprints
              else cfg.sprints.filter (fun s => s.type == some "split")
  List.insertionSort splitLe base

/-- The per-rider `leaguePoints` marking of the rider loop of
`_calculate_time_trial_league_points`. -/
def markRiderTT (splits : List SprintConfig) (dqs exc : List String) (r : Rider) : Rider :=
  if exc.contains r.zwiftId then { r with leaguePoints := none }
  else if dqs.contains r.zwiftId then { r with leaguePoints := some 0 }
  else if !(decide (0 < r.finishTime)) && (getFurthest splits r).isNone then
    { r with leaguePoints := none }
  else r

/-- The time-trial candidate record of the scorer's path. -/
def candTT (splits : List SprintConfig) (dqs dcl exc : List String) (p : Nat × Rider) :
    Option (Nat × Bool × Int × Int × Int × Bool) :=
  if exc.contains p.2.zwiftId || dqs.contains p.2.zwiftId then none
  else
    let furthest := getFurthest splits p.2
    if decide (0 < p.2.finishTime) || furthest.isSome then
      some (ttRecord dcl p furthest)
    else none

/-- `RaceScorer._calculate_time_trial_league_points`. -/
def scorerTTLP (riders : List Rider) (cfg : RaceData) (lrp : List Int)
    (dqs dcl exc : List String) : List Rider :=
  let splits := scorerTTSplits cfg
  let marked := riders.map (markRiderTT splits dqs exc)
  let cands := (enumL riders).filterMap (candTT splits dqs dcl exc)
  let sorted := List.insertionSort ttLe cands
  let assigns : List (Nat × Int) := (enumL sorted).map (fun q => (q.2.1, lrp.getD q.1 0))
  assignByIdx marked assigns

/-- `RaceScorer.calculate_league_points`: with no scheme every rider's
`leaguePoints` is set to `None`; otherwise dispatch on the race type
(`time-trial` vs everything else). -/
def scorerCalcLeaguePoints (riders : List Rider) (cfg : RaceData) (lrp : List Int) :
    List Rider :=
  if lrp.isEmpty then riders.map (fun r => { r with leaguePoints := none })
  else if cfg.rtype = "time-trial" then
    scorerTTLP riders cfg lrp cfg.manualDQs cfg.manualDeclassifications cfg.manualExclusions
  else
    scorerPointsRaceLP riders lrp cfg.manualDQs cfg.manualDeclassifications cfg.manualExclusions

/-! ### LeagueEngine -/

/-- `LeagueEngine._get_category_sprints`. -/
def getCategorySprints (rd : RaceData) (cat : String) : List SprintConfig :=
  match (if rd.eventMode = some "multi" ∧ rd.eventConfiguration ≠ [] then
           rd.eventConfiguration.find? (fun c => c.customCategory == some cat)
         else none) with
  | some c => c.sprints
  | none =>
    match (if rd.singleModeCategories ≠ [] then
             rd.singleModeCategories.find? (fun c => c.category == some cat)
           else none) with
    | some c => c.sprints
    | none => rd.sprints

/-- `LeagueEngine._get_category_segment_type`. -/
def getCategorySegmentType (rd : RaceData) (cat : String) : String :=
  match (if rd.eventMode = some "multi" ∧ rd.eventConfiguration ≠ [] then
           rd.eventConfiguration.find? (fun c => c.customCategory == some cat)
         else none) with
  | some c => orDefaultStr c.segmentType rd.segmentType
  | none =>
    match (if rd.singleModeCategories ≠ [] then
             rd.singleModeCategories.find? (fun c => c.category == some cat)
           else none) with
    | some c => orDefaultStr c.segmentType rd.segmentType
    | none => rd.segmentType

/-- The empty-scheme fallback of `_calculate_race_league_points`:
`totalPoints` for active riders, 0 for DQ, the last-place finish points
for declassified riders (indexed by the count of all non-DQ,
non-declassified riders). -/
def engineFallbackLP (fps : List Int) (riders : List Rider)
    (dqs dcl exc : List String) : List (String × Int) :=
  let validCount :=
    (riders.filter (fun r => !(dqs.contains r.zwiftId) && !(dcl.contains r.zwiftId))).length
  let lastPlacePoints := fps.getD validCount 0
  riders.foldl (fun res r =>
    if exc.contains r.zwiftId then res
    else if dqs.contains r.zwiftId then setKey r.zwiftId 0 res
    else if dcl.contains r.zwiftId then setKey r.zwiftId lastPlacePoints res
    else if decide (0 < r.totalPoints) || decide (0 < r.finishTime)
            || !r.sprintData.isEmpty then
      setKey r.zwiftId r.totalPoints res
    else res) []

/-- Stable ascending sort relation for the engine's scratch ranking:
`(declassified-last, finishTime)`. -/
def scratchLe (a b : String × Int × Bool) : Prop :=
  (if a.2.2 then (1 : Int) else 0) < (if b.2.2 then 1 else 0) ∨
    ((if a.2.2 then (1 : Int) else 0) = (if b.2.2 then 1 else 0) ∧ a.2.1 ≤ b.2.1)

instance : DecidableRel scratchLe :=
  fun a b => inferInstanceAs (Decidable (_ ∨ _))

/-- `LeagueEngine._calculate_scratch_race_league_points`: only finishers
are ranked, by finish time ascending (declassified last). -/
def engineScratchLP (lrp : List Int) (riders : List Rider)
    (dqs dcl exc : List String) : List (String × Int) :=
  let base := riders.foldl (fun res r =>
    if exc.contains r.zwiftId then res
    else if dqs.contains r.zwiftId then setKey r.zwiftId 0 res
    else res) []
  let cands := riders.filterMap (fun r =>
    if exc.contains r.zwiftId || dqs.contains r.zwiftId then none
    else if decide (0 < r.finishTime) then
      some (r.zwiftId, r.finishTime, dcl.contains r.zwiftId)
    else none)
  let sorted := List.insertionSort scratchLe cands
  (enumL sorted).foldl (fun res q => setKey q.2.1 (lrp.getD q.1 0) res) base

/-- `LeagueEngine._calculate_points_race_league_points`. -/
def enginePointsLP (lrp : List Int) (riders : List Rider)
    (dqs dcl exc : List String) : List (String × Int) :=
  let base := riders.foldl (fun res r =>
    if exc.contains r.zwiftId then res
    else if dqs.contains r.zwiftId then setKey r.zwiftId 0 res
    else res) []
  let cands : List (String × Int × Int × Bool) := riders.filterMap (fun r =>
    if exc.contains r.zwiftId || dqs.contains r.zwiftId then none
    else if decide (0 < r.finishTime) || decide (0 < r.totalPoints)
            || !r.sprintData.isEmpty then
      some (r.zwiftId, r.totalPoints, adjFinishRank r, dcl.contains r.zwiftId)
    else none)
  let sorted := List.insertionSort rank3Ge cands
  (enumL sorted).foldl (fun res q => setKey q.2.1 (lrp.getD q.1 0) res) base

/-- The engine's time-trial splits: category sprints filtered to `split`
type (no re-sorting, original course order is kept). -/
def engineTTSplits (rd : RaceData) (cat : String) : List SprintConfig :=
  let sprintsConfig := getCategorySprints rd cat
  if getCategorySegmentType rd cat = "split" then sprintsConfig
  else sprintsConfig.filter (fun s => s.type == some "split")

/-- `LeagueEngine._calculate_time_trial_league_points`. -/
def engineTTLP (lrp : List Int) (riders : List Rider) (rd : RaceData) (cat : String)
    (dqs dcl exc : List String) : List (String × Int) :=
  let splits := engineTTSplits rd cat
  let base := riders.foldl (fun res r =>
    if exc.contains r.zwiftId then res
    else if dqs.contains r.zwiftId then setKey r.zwiftId 0 res
    else res) []
  let cands := riders.filterMap (fun r =>
    if exc.contains r.zwiftId || dqs.contains r.zwiftId then none
    else
      let furthest := getFurthest splits r
      if decide (0 < r.finishTime) || furthest.isSome then
        some (ttRecord dcl (r.zwiftId, r) furthest)
      else none)
  let sorted := List.insertionSort ttLe cands
  (enumL sorted).foldl (fun res q => setKey q.2.1 (lrp.getD q.1 0) res) base

/-- `LeagueEngine._calculate_race_league_points`: empty-scheme fallback,
then dispatch on race type (`time-trial`, `scratch`, everything else to
the points ranking). -/
def engineRaceLP (st : LeagueSettings) (riders : List Rider) (rd : RaceData)
    (cat : String) (rtype : String) (dqs dcl exc : List String) : List (String × Int) :=
  if st.leagueRankPoints.isEmpty then engineFallbackLP st.finishPoints riders dqs dcl exc
  else if rtype = "time-trial" then engineTTLP st.leagueRankPoints riders rd cat dqs dcl exc
  else if rtype = "scratch" then engineScratchLP st.leagueRankPoints riders dqs dcl exc
  else enginePointsLP st.leagueRankPoints riders dqs dcl exc

/-- Ledger update for one rider of one race
(the body of the rider loop of `calculate_standings`). -/
def processRider (raceId : String) (raceDate : Option Int) (lpMap : List (String × Int))
    (exc : List String) (d : List (String × StandingsEntry)) (r : Rider) :
    List (String × StandingsEntry) :=
  if exc.contains r.zwiftId then d
  else
    match lookupKey r.zwiftId lpMap with
    | none => d
    | some pts =>
      let e0 := match lookupKey r.zwiftId d with
        | some e => e
        | none =>
          { zwiftId := r.zwiftId, name := r.name, totalPoints := 0, raceCount := 0,
            results := [], lastRacePoints := 0, lastRaceDate := none }
      let e1 := { e0 with totalPoints := e0.totalPoints + pts,
                          raceCount := e0.raceCount + 1,
                          results := e0.results ++ [(raceId, pts)] }
      let e2 := match raceDate with
        | none => e1
        | some dt =>
          match e1.lastRaceDate with
          | none => { e1 with lastRaceDate := some dt, lastRacePoints := pts }
          | some ld =>
            if ld ≤ dt then { e1 with lastRaceDate := some dt, lastRacePoints := pts }
            else e1
      setKey r.zwiftId e2 d

/-- The override substitution at the top of the race loop: replace the
race data when a truthy `override_race_id` equals the race's id. -/
def effectiveRace (override : Option (String × RaceData)) (rd : RaceData) : RaceData :=
  match override with
  | some (oid, od) => if oid ≠ "" ∧ rd.id = oid then od else rd
  | none => rd

/-- One iteration of the race loop of `calculate_standings`. -/
def processRace (st : LeagueSettings) (override : Option (String × RaceData))
    (table : List (String × List (String × StandingsEntry))) (race : RaceData) :
    List (String × List (String × StandingsEntry)) :=
  let raceId := race.id
  let rd := effectiveRace override race
  if rd.results.isEmpty then table
  else
    let raceDate := rd.raceDateTime
    let dqs := rd.manualDQs
    let dcl := rd.manualDeclassifications
    let exc := rd.manualExclusions
    let rtype := rd.rtype
    rd.results.foldl (fun tbl cr =>
      let d0 := (lookupKey cr.1 tbl).getD []
      let lpMap := engineRaceLP st cr.2 rd cr.1 rtype dqs dcl exc
      let d1 := cr.2.foldl (processRider raceId raceDate lpMap exc) d0
      setKey cr.1 d1 tbl) table

/-- Sort relation on a rider's per-race results: points descending. -/
def resultsGe (a b : String × Int) : Prop := b.2 ≤ a.2

instance : DecidableRel resultsGe :=
  fun a b => inferInstanceAs (Decidable (b.2 ≤ a.2))

instance : IsTotal (String × Int) resultsGe := ⟨fun a b => (Int.le_total a.2 b.2).symm⟩

instance : IsTrans (String × Int) resultsGe := ⟨fun _ _ _ h1 h2 => le_trans h2 h1⟩

/-- Final standings sort relation: `(totalPoints, lastRacePoints)`
descending, stable. -/
def standingsGe (e1 e2 : StandingsEntry) : Prop :=
  e2.totalPoints < e1.totalPoints ∨
    (e1.totalPoints = e2.totalPoints ∧ e2.lastRacePoints ≤ e1.lastRacePoints)

instance : DecidableRel standingsGe :=
  fun a b => inferInstanceAs (Decidable (_ ∨ _))

instance : IsTotal StandingsEntry standingsGe :=
  ⟨fun a b => by unfold standingsGe; omega⟩

instance : IsTrans StandingsEntry standingsGe :=
  ⟨fun a b c h1 h2 => by unfold standingsGe at *; omega⟩

/-- The best-N step of `calculate_standings`: sort the rider's results by
points descending, keep the first `bestRacesCount` (Python slice
semantics) and recompute `totalPoints` as their sum. -/
def finalizeEntry (n : Int) (e : StandingsEntry) : StandingsEntry :=
  let sorted := List.insertionSort resultsGe e.results
  let best := pySliceTo n sorted
  { e with results := sorted, totalPoints := (best.map Prod.snd).sum }

/-- `LeagueEngine.calculate_standings`. -/
def calculateStandings (st : LeagueSettings) (races : List RaceData)
    (override : Option (String × RaceData)) : List (String × List StandingsEntry) :=
  let table := races.foldl (processRace st override) []
  table.map (fun cd =>
    (cd.1, List.insertionSort standingsGe (cd.2.map (fun p => finalizeEntry st.bestRacesCount p.2))))

/-! ### Spec-side auxiliary definitions -/

/-- Descending order on `Int`, used to state "the n largest values". -/
def geInt (a b : Int) : Prop := b ≤ a

instance : DecidableRel geInt := fun a b => inferInstanceAs (Decidable (b ≤ a))

instance : IsTotal Int geInt := ⟨fun a b => (Int.le_total a b).symm⟩

instance : IsTrans Int geInt := ⟨fun _ _ _ h1 h2 => le_trans h2 h1⟩

instance : IsAntisymm Int geInt := ⟨fun _ _ h1 h2 => le_antisymm h2 h1⟩

/-- The sum of the `n` largest values of a list (spec-side formulation of
the best-N rule, to be compared with the engine's computation). -/
def sumTopN (n : Int) (xs : List Int) : Int :=
  ((List.insertionSort geInt xs).take n.toNat).sum

/-- The rider fields that the sprint-points phase never touches.
Used as the preservation invariant threaded through the per-key fold of
`_calculate_sprint_points`. -/
def riderPres (r r' : Rider) : Prop :=
  r'.zwiftId = r.zwiftId ∧ r'.name = r.name ∧ r'.finishTime = r.finishTime ∧
  r'.finishRank = r.finishRank ∧ r'.finishPoints = r.finishPoints ∧
  r'.disqualified = r.disqualified ∧ r'.declassified = r.declassified ∧
  r'.leaguePoints = r.leaguePoints ∧ r'.totalPoints = r.totalPoints

/-! ### Concrete fixtures used by the claim theorems -/

def c1A : Rider := { zwiftId := "A", sprintData := [("s_1", { worldTime := 100 })] }
def c1B : Rider := { zwiftId := "B", sprintData := [("s_1", { worldTime := 100 })] }
def c1C : Rider := { zwiftId := "C", sprintData := [("s_1", { worldTime := 105 })] }
def c1Out : List Rider := calcSprintPoints [5, 3, 2] {} [] [] [c1A, c1B, c1C]
def c1Efforts : List (Nat × String × SprintEntry) :=
  [(0, "A", { worldTime := 100 }), (1, "B", { worldTime := 100 }),
   (2, "C", { worldTime := 105 })]

def c2Rider : Rider := { zwiftId := "Q", finishTime := 100 }
def c2Cfg : RaceData := { manualDQs := ["Q"] }
def c2Out : List Rider := scorerCalcLeaguePoints [c2Rider] c2Cfg []

def c3Sc : RaceScorer := { finishPointsScheme := [10, 7] }
def c3Riders : List Rider :=
  [{ zwiftId := "X", finishTime := 100 }, { zwiftId := "Y", finishTime := 90 }]
def c3Cfg : RaceData := { manualExclusions := ["X"] }
def c3St : LeagueSettings := {}
def c3Races : List RaceData :=
  [{ id := "r1", manualExclusions := ["X"], raceDateTime := some 1,
     results := [("A", [{ zwiftId := "X", finishTime := 100, totalPoints := 5 },
                        { zwiftId := "Y", finishTime := 90, totalPoints := 7 }])] }]
def c3Entries : List StandingsEntry :=
  (lookupKey "A" (calculateStandings c3St c3Races none)).getD []

def c4A : Rider := { zwiftId := "A", finishTime := 100, totalPoints := 5, finishRank := 1 }
def c4B : Rider := { zwiftId := "B", finishTime := 200, totalPoints := 10, finishRank := 2 }
def c4S : Rider := { zwiftId := "S", finishTime := 0, totalPoints := 3,
                     sprintData := [("k", { worldTime := 7 })] }
def c4Scratch : List (String × Int) := engineScratchLP [10, 6, 4] [c4A, c4B, c4S] [] [] []
def c4Dcl : List (String × Int) :=
  engineScratchLP [10, 6] [{ zwiftId := "D", finishTime := 100 },
    { zwiftId := "V", finishTime := 200 }] [] ["D"] []

def c5V1 : Rider := { zwiftId := "V1", finishTime := 100, totalPoints := 10 }
def c5V2 : Rider := { zwiftId := "V2" }
def c5D : Rider := { zwiftId := "D", finishTime := 150 }
def c5Res : List (String × Int) := engineFallbackLP [10, 7, 5] [c5V1, c5V2, c5D] [] ["D"] []

def c6Cfg : RaceData :=
  { rtype := "time-trial",
    sprints := [{ id := "S1", count := 1, key := some "S1", type := some "split" },
                { id := "S2", count := 2, key := some "S2", type := some "split" },
                { id := "S3", count := 3, key := some "S3", type := some "split" }] }
def c6A : Rider := { zwiftId := "A", sprintData := [("S2", { worldTime := 500 })] }
def c6B : Rider := { zwiftId := "B", sprintData := [("S3", { worldTime := 900 })] }
def c6C : Rider := { zwiftId := "C", sprintData := [("S2", { worldTime := 400 })] }
def c6Engine : List (String × Int) :=
  engineRaceLP { leagueRankPoints := [10, 8, 6] } [c6A, c6B, c6C] c6Cfg "X"
    "time-trial" [] [] []
def c6Scorer : List Rider := scorerCalcLeaguePoints [c6A, c6B, c6C] c6Cfg [10, 8, 6]

def c7Sc : RaceScorer := { finishPointsScheme := [1, 10] }
def c7X : Rider := { zwiftId := "X", finishTime := 100 }
def c7D : Rider := { zwiftId := "D", finishTime := 200 }
def c7Cfg : RaceData := { manualDeclassifications := ["D"] }
def c7Out : List Rider := calculateResults c7Sc [c7X, c7D] c7Cfg
def c7wSc : RaceScorer := { finishPointsScheme := [10, 7] }
def c7wOut : List Rider := calculateResults c7wSc [c7X, c7D] c7Cfg

/-- A one-rider race document used in the standings scenarios. -/
def mkSimpleRace (i : String) (tp : Int) (d : Int) : RaceData :=
  { id := i, raceDateTime := some d,
    results := [("A", [{ zwiftId := "R", name := "R", finishTime := 100,
                         totalPoints := tp }])] }

def c8Races : List RaceData :=
  [mkSimpleRace "r1" 20 1, mkSimpleRace "r2" 18 2, mkSimpleRace "r3" 15 3,
   mkSimpleRace "r4" 10 4, mkSimpleRace "r5" 5 5, mkSimpleRace "r6" 0 6]
def c8St : LeagueSettings := { bestRacesCount := 5 }
def c8Standings : List (String × List StandingsEntry) := calculateStandings c8St c8Races none
def c8Entries : List StandingsEntry := (lookupKey "A" c8Standings).getD []

def c9St : LeagueSettings := { bestRacesCount := -1 }
def c9Races : List RaceData := [mkSimpleRace "r1" 10 1, mkSimpleRace "r2" 5 2]
def c9Standings : List (String × List StandingsEntry) := calculateStandings c9St c9Races none
def c9WeirdCfg : RaceData := { rtype := "funky" }
def c9Riders : List Rider := [{ zwiftId := "P", finishTime := 50, totalPoints := 4 }]

def c10SplitCfg : RaceData := { segmentType := "split" }
def c10R : Rider := { zwiftId := "Q", sprintData := [("k1", { worldTime := 77 })] }
def c10V : Rider := { zwiftId := "W", sprintData := [("k1", { worldTime := 66 })] }

/-! ### Helper lemmas: enumerate, dict and lookup operations -/

theorem enumFromN_length (n : Nat) (l : List α) : (enumFromN n l).length = l.length := by
  induction l generalizing n with
  | nil => rfl
  | cons a t ih => simp [enumFromN, ih]

theorem enumL_length (l : List α) : (enumL l).length = l.length := enumFromN_length 0 l

theorem enumFromN_getElem? (n : Nat) (l : List α) (i : Nat) :
    (enumFromN n l)[i]? = l[i]?.map (fun a => (n + i, a)) := by
  induction l generalizing n i with
  | nil => simp [enumFromN]
  | cons a t ih =>
    cases i with
    | zero => simp [enumFromN]
    | succ j =>
      have h : n + 1 + j = n + (j + 1) := by omega
      simp only [enumFromN, List.getElem?_cons_succ, ih (n + 1) j, h]

theorem enumL_getElem? (l : List α) (i : Nat) :
    (enumL l)[i]? = l[i]?.map (fun a => (i, a)) := by
  rw [enumL, enumFromN_getElem?]
  cases l[i]? <;> simp

theorem mem_enumFromN {p : Nat × α} {n : Nat} {l : List α} :
    p ∈ enumFromN n l ↔ ∃ i, p.1 = n + i ∧ l[i]? = some p.2 := by
  rw [List.mem_iff_getElem?]
  constructor
  · rintro ⟨i, hi⟩
    rw [enumFromN_getElem?] at hi
    rcases Option.map_eq_some'.mp hi with ⟨a, ha, hpa⟩
    refine ⟨i, ?_, ?_⟩
    · rw [← hpa]
    · rw [← hpa]; exact ha
  · rintro ⟨i, h1, h2⟩
    refine ⟨i, ?_⟩
    rw [enumFromN_getElem?, h2]
    obtain ⟨p1, p2⟩ := p
    simp only at h1 h2 ⊢
    simp [h1]

theorem mem_enumL {p : Nat × α} {l : List α} : p ∈ enumL l ↔ l[p.1]? = some p.2 := by
  rw [enumL, mem_enumFromN]
  constructor
  · rintro ⟨i, h1, h2⟩
    rw [h1]; simpa using h2
  · intro h
    exact ⟨p.1, by simp, h⟩

theorem enumFromN_map_snd (n : Nat) (l : List α) : (enumFromN n l).map Prod.snd = l := by
  induction l generalizing n with
  | nil => rfl
  | cons a t ih => simp [enumFromN, ih]

theorem enumFromN_map_fst (n : Nat) (l : List α) :
    (enumFromN n l).map Prod.fst = List.range' n l.length := by
  induction l generalizing n with
  | nil => rfl
  | cons a t ih => simp [enumFromN, List.range'_succ, ih]

theorem enumL_map_fst_nodup (l : List α) : ((enumL l).map Prod.fst).Nodup := by
  rw [enumL, enumFromN_map_fst]
  exact List.nodup_range' 0 l.length

theorem enumMap_getElem? (f : Nat → α → β) (l : List α) (i : Nat) :
    ((enumL l).map (fun p => f p.1 p.2))[i]? = l[i]?.map (f i) := by
  rw [List.getElem?_map, enumL_getElem?]
  cases l[i]? <;> simp

theorem lookupKey_setKey_self (k : String) (v : α) (l : List (String × α)) :
    lookupKey k (setKey k v l) = some v := by
  induction l with
  | nil => simp [setKey, lookupKey]
  | cons p t ih =>
    obtain ⟨k', v'⟩ := p
    by_cases h : k' = k
    · simp [setKey, h, lookupKey]
    · simp [setKey, h, lookupKey, ih]

theorem lookupKey_setKey_ne {k k' : String} (h : k' ≠ k) (v : α) (l : List (String × α)) :
    lookupKey k' (setKey k v l) = lookupKey k' l := by
  have hk : k ≠ k' := fun h' => h h'.symm
  induction l with
  | nil => simp [setKey, lookupKey, hk]
  | cons p t ih =>
    obtain ⟨k0, v0⟩ := p
    by_cases h0 : k0 = k
    · subst h0
      simp [setKey, lookupKey, hk]
    · simp only [setKey, if_neg h0, lookupKey]
      by_cases h1 : k0 = k'
      · simp [h1]
      · simp [h1, ih]

theorem lookupKey_mem {k : String} {v : α} {l : List (String × α)}
    (h : lookupKey k l = some v) : (k, v) ∈ l := by
  induction l with
  | nil => simp [lookupKey] at h
  | cons p t ih =>
    obtain ⟨k0, v0⟩ := p
    by_cases h0 : k0 = k
    · subst h0
      simp [lookupKey] at h
      subst h
      exact List.mem_cons_self _ _
    · simp only [lookupKey, if_neg h0] at h
      exact List.mem_cons_of_mem _ (ih h)

theorem lookupKey_eq_none {k : String} {l : List (String × α)}
    (h : k ∉ l.map Prod.fst) : lookupKey k l = none := by
  induction l with
  | nil => rfl
  | cons p t ih =>
    obtain ⟨k0, v0⟩ := p
    simp only [List.map_cons, List.mem_cons, not_or] at h
    simp only [lookupKey, if_neg (fun (h' : k0 = k) => h.1 h'.symm)]
    exact ih h.2

theorem mem_setKey {p : String × α} {k : String} {v : α} {l : List (String × α)}
    (h : p ∈ setKey k v l) : p = (k, v) ∨ p ∈ l := by
  induction l with
  | nil => simpa [setKey] using h
  | cons q t ih =>
    obtain ⟨k0, v0⟩ := q
    by_cases h0 : k0 = k
    · simp only [setKey, if_pos h0, List.mem_cons] at h
      rcases h with h | h
      · exact Or.inl h
      · exact Or.inr (List.mem_cons_of_mem _ h)
    · simp only [setKey, if_neg h0, List.mem_cons] at h
      rcases h with h | h
      · exact Or.inr (h ▸ List.mem_cons_self _ _)
      · rcases ih h with h' | h'
        · exact Or.inl h'
        · exact Or.inr (List.mem_cons_of_mem _ h')

theorem lookupNat_mem {i : Nat} {v : α} {l : List (Nat × α)}
    (h : lookupNat i l = some v) : (i, v) ∈ l := by
  induction l with
  | nil => simp [lookupNat] at h
  | cons p t ih =>
    obtain ⟨j, v0⟩ := p
    by_cases h0 : j = i
    · subst h0
      simp [lookupNat] at h
      subst h
      exact List.mem_cons_self _ _
    · simp only [lookupNat, if_neg h0] at h
      exact List.mem_cons_of_mem _ (ih h)

theorem lookupNat_eq_none {i : Nat} {l : List (Nat × α)}
    (h : i ∉ l.map Prod.fst) : lookupNat i l = none := by
  induction l with
  | nil => rfl
  | cons p t ih =>
    obtain ⟨j, v0⟩ := p
    simp only [List.map_cons, List.mem_cons, not_or] at h
    simp only [lookupNat, if_neg (fun (h' : j = i) => h.1 h'.symm)]
    exact ih h.2

theorem lookupNat_of_mem_nodup {i : Nat} {v : α} {l : List (Nat × α)}
    (h : (i, v) ∈ l) (hn : (l.map Prod.fst).Nodup) : lookupNat i l = some v := by
  induction l with
  | nil => simp at h
  | cons p t ih =>
    obtain ⟨j, v0⟩ := p
    simp only [List.map_cons, List.nodup_cons] at hn
    rcases List.mem_cons.mp h with heq | hmem
    · have h1 : i = j := congrArg Prod.fst heq
      have h2 : v = v0 := congrArg Prod.snd heq
      subst h1
      subst h2
      simp [lookupNat]
    · have hji : j ≠ i := by
        intro he
        subst he
        exact hn.1 (List.mem_map_of_mem Prod.fst hmem)
      simp only [lookupNat, if_neg hji]
      exact ih hmem hn.2

theorem map_fst_filterMap_sublist {g : (Nat × α) → Option (Nat × β)}
    (hg : ∀ p y, g p = some y → y.1 = p.1) (l : List (Nat × α)) :
    ((l.filterMap g).map Prod.fst).Sublist (l.map Prod.fst) := by
  induction l with
  | nil => simp
  | cons p t ih =>
    rw [List.filterMap_cons]
    match h : g p with
    | none => simpa using ih.cons p.1
    | some y =>
      simp only [List.map_cons, hg p y h]
      exact ih.cons₂ p.1

/-! ### Helper lemmas: the sprint-points phase -/

theorem riderPres_refl (r : Rider) : riderPres r r :=
  ⟨rfl, rfl, rfl, rfl, rfl, rfl, rfl, rfl, rfl⟩

theorem riderPres_trans {r1 r2 r3 : Rider} (h1 : riderPres r1 r2) (h2 : riderPres r2 r3) :
    riderPres r1 r3 := by
  obtain ⟨a1, a2, a3, a4, a5, a6, a7, a8, a9⟩ := h1
  obtain ⟨b1, b2, b3, b4, b5, b6, b7, b8, b9⟩ := h2
  exact ⟨b1.trans a1, b2.trans a2, b3.trans a3, b4.trans a4, b5.trans a5,
         b6.trans a6, b7.trans a7, b8.trans a8, b9.trans a9⟩

theorem mem_collectEfforts {key : String} {l : List Rider} {x : Nat × String × SprintEntry}
    (h : x ∈ collectEfforts key l) :
    ∃ r, l[x.1]? = some r ∧ x.2.1 = r.zwiftId ∧ lookupKey key r.sprintData = some x.2.2 := by
  rcases List.mem_filterMap.mp h with ⟨p, hp, hgp⟩
  rcases Option.map_eq_some'.mp hgp with ⟨e, he, hxe⟩
  subst hxe
  exact ⟨p.2, mem_enumL.mp hp, rfl, he⟩

theorem collectEfforts_mem_of {key : String} {l : List Rider} {i : Nat} {r : Rider}
    {e : SprintEntry} (hl : l[i]? = some r) (he : lookupKey key r.sprintData = some e) :
    (i, r.zwiftId, e) ∈ collectEfforts key l := by
  rw [collectEfforts]
  refine List.mem_filterMap.mpr ⟨(i, r), mem_enumL.mpr ?_, ?_⟩
  · simpa using hl
  · simp [he]

theorem collectEfforts_fst_nodup (key : String) (l : List Rider) :
    ((collectEfforts key l).map Prod.fst).Nodup := by
  rw [collectEfforts]
  refine (map_fst_filterMap_sublist ?_ (enumL l)).nodup (enumL_map_fst_nodup l)
  intro p y hy
  rcases Option.map_eq_some'.mp hy with ⟨e, _, hxe⟩
  subst hxe
  rfl

theorem assignEfforts_map_fst (scheme : List Int) (sp : Bool) (dqs dcl : List String)
    (rc : Int) (pi : Nat) (efforts : List (Nat × String × SprintEntry)) :
    (assignEfforts scheme sp dqs dcl rc pi efforts).map Prod.fst = efforts.map Prod.fst := by
  induction efforts generalizing rc pi with
  | nil => rfl
  | cons x rest ih =>
    obtain ⟨i, z, e⟩ := x
    simp only [assignEfforts]
    split
    · split
      · simp [ih]
      · simp [ih]
    · simp [ih]

theorem mem_assignEfforts {scheme : List Int} {sp : Bool} {dqs dcl : List String} :
    ∀ {rc : Int} {pi : Nat} {efforts : List (Nat × String × SprintEntry)}
      {x : Nat × Int × Int}, x ∈ assignEfforts scheme sp dqs dcl rc pi efforts →
    ∃ z e, (x.1, z, e) ∈ efforts ∧
      ((dqs.contains z || dcl.contains z) = true → x.2.1 = 0 ∧ x.2.2 = 0) := by
  intro rc pi efforts
  induction efforts generalizing rc pi with
  | nil => intro x h; simp [assignEfforts] at h
  | cons y rest ih =>
    intro x h
    obtain ⟨i, z, e⟩ := y
    simp only [assignEfforts] at h
    by_cases hv : (!(dqs.contains z) && !(dcl.contains z)) = true
    · rw [if_pos hv] at h
      simp only [Bool.and_eq_true, Bool.not_eq_true'] at hv
      by_cases h2 : (!sp && decide (pi < scheme.length)) = true
      · rw [if_pos h2] at h
        rcases List.mem_cons.mp h with hx | hx
        · subst hx
          exact ⟨z, e, List.mem_cons_self _ _,
            fun hinv => by rw [hv.1, hv.2] at hinv; simp at hinv⟩
        · rcases ih hx with ⟨z', e', hm, hp⟩
          exact ⟨z', e', List.mem_cons_of_mem _ hm, hp⟩
      · rw [if_neg h2] at h
        rcases List.mem_cons.mp h with hx | hx
        · subst hx
          exact ⟨z, e, List.mem_cons_self _ _,
            fun hinv => by rw [hv.1, hv.2] at hinv; simp at hinv⟩
        · rcases ih hx with ⟨z', e', hm, hp⟩
          exact ⟨z', e', List.mem_cons_of_mem _ hm, hp⟩
    · rw [if_neg hv] at h
      rcases List.mem_cons.mp h with hx | hx
      · subst hx
        exact ⟨z, e, List.mem_cons_self _ _, fun _ => ⟨rfl, rfl⟩⟩
      · rcases ih hx with ⟨z', e', hm, hp⟩
        exact ⟨z', e', List.mem_cons_of_mem _ hm, hp⟩

theorem assignEfforts_mem_invalid {scheme : List Int} {sp : Bool} {dqs dcl : List String}
    {z : String} {e : SprintEntry} {i : Nat}
    (hinv : (dqs.contains z || dcl.contains z) = true) :
    ∀ (rc : Int) (pi : Nat) {efforts : List (Nat × String × SprintEntry)},
    (i, z, e) ∈ efforts → (i, 0, 0) ∈ assignEfforts scheme sp dqs dcl rc pi efforts := by
  intro rc pi efforts h
  induction efforts generalizing rc pi with
  | nil => simp at h
  | cons y rest ih =>
    obtain ⟨j, z', e'⟩ := y
    rcases List.mem_cons.mp h with hx | hx
    · have hj : i = j := congrArg Prod.fst hx
      have hz : z = z' := congrArg (fun p => p.2.1) hx
      subst hj
      subst hz
      have hv : (!(dqs.contains z) && !(dcl.contains z)) = false := by
        rcases Bool.or_eq_true_iff.mp hinv with h' | h' <;> rw [h'] <;> simp
      simp only [assignEfforts, hv]
      simp
    · simp only [assignEfforts]
      split
      · split
        · exact List.mem_cons_of_mem _ (ih _ _ hx)
        · exact List.mem_cons_of_mem _ (ih _ _ hx)
      · exact List.mem_cons_of_mem _ (ih _ _ hx)

theorem assignEfforts_getElem?_valid (scheme : List Int) (dqs dcl : List String) :
    ∀ (efforts : List (Nat × String × SprintEntry)),
    (∀ x ∈ efforts, dqs.contains x.2.1 = false ∧ dcl.contains x.2.1 = false) →
    ∀ (rc : Int) (pi : Nat) (i : Nat),
    (assignEfforts scheme false dqs dcl rc pi efforts)[i]? =
      (efforts[i]?).map (fun x => (x.1, rc + i, scheme.getD (pi + i) 0)) := by
  intro efforts
  induction efforts with
  | nil => intro _ rc pi i; simp [assignEfforts]
  | cons y rest ih =>
    intro hv rc pi i
    obtain ⟨j, z, e⟩ := y
    have hz := hv (j, z, e) (List.mem_cons_self _ _)
    have hvrest : ∀ x ∈ rest, dqs.contains x.2.1 = false ∧ dcl.contains x.2.1 = false :=
      fun x hx => hv x (List.mem_cons_of_mem _ hx)
    simp only at hz
    simp only [assignEfforts, hz.1, hz.2, Bool.not_false, Bool.and_self, if_pos]
    by_cases hp : pi < scheme.length
    · rw [if_pos (by simp [hp])]
      cases i with
      | zero => simp
      | succ m =>
        simp only [List.getElem?_cons_succ]
        rw [ih hvrest (rc + 1) (pi + 1) m]
        cases hm : rest[m]? with
        | none => rfl
        | some x =>
          rw [Option.map_some', Option.map_some']
          have h2 : pi + 1 + m = pi + (m + 1) := by omega
          have h1 : rc + 1 + (m : Int) = rc + ((m + 1 : Nat) : Int) := by push_cast; ring
          rw [h2, h1]
    · rw [if_neg (by simp [hp])]
      cases i with
      | zero =>
        have hg : scheme.getD pi 0 = 0 := by
          rw [List.getD_eq_default]
          omega
        simp only [List.getElem?_cons_zero, Option.map_some', Nat.add_zero, Nat.cast_zero,
          add_zero, hg]
      | succ m =>
        simp only [List.getElem?_cons_succ]
        rw [ih hvrest (rc + 1) pi m]
        cases hm : rest[m]? with
        | none => rfl
        | some x =>
          rw [Option.map_some', Option.map_some']
          have g1 : scheme.getD (pi + m) 0 = 0 := by
            rw [List.getD_eq_default]
            omega
          have g2 : scheme.getD (pi + (m + 1)) 0 = 0 := by
            rw [List.getD_eq_default]
            omega
          have h1 : rc + 1 + (m : Int) = rc + ((m + 1 : Nat) : Int) := by push_cast; ring
          rw [g1, g2, h1]

theorem applySprintUpdate_pres (key : String) (sp : Bool) (assigns : List (Nat × Int × Int))
    (i : Nat) (r : Rider) : riderPres r (applySprintUpdate key sp assigns i r) := by
  unfold applySprintUpdate
  cases lookupNat i assigns with
  | none => exact riderPres_refl r
  | some rp =>
    cases lookupKey key r.sprintData with
    | none =>
      cases sp with
      | true => exact riderPres_refl r
      | false =>
        by_cases h : 0 < rp.2
        · simp only [if_pos h, Bool.false_eq_true, if_false]
          exact ⟨rfl, rfl, rfl, rfl, rfl, rfl, rfl, rfl, rfl⟩
        · simp only [if_neg h, Bool.false_eq_true, if_false]
          exact riderPres_refl r
    | some e =>
      cases sp with
      | true => exact ⟨rfl, rfl, rfl, rfl, rfl, rfl, rfl, rfl, rfl⟩
      | false =>
        by_cases h : 0 < rp.2
        · simp only [if_pos h, Bool.false_eq_true, if_false]
          exact ⟨rfl, rfl, rfl, rfl, rfl, rfl, rfl, rfl, rfl⟩
        · simp only [if_neg h, Bool.false_eq_true, if_false]
          exact ⟨rfl, rfl, rfl, rfl, rfl, rfl, rfl, rfl, rfl⟩

theorem applySprintUpdate_sprintPoints (key : String) (sp : Bool)
    (assigns : List (Nat × Int × Int)) (i : Nat) (r : Rider)
    (hz : ∀ rk pts, lookupNat i assigns = some (rk, pts) → sp = true ∨ pts ≤ 0) :
    (applySprintUpdate key sp assigns i r).sprintPoints = r.sprintPoints := by
  unfold applySprintUpdate
  cases ha : lookupNat i assigns with
  | none => rfl
  | some rp =>
    obtain ⟨rk, pts⟩ := rp
    rcases hz rk pts ha with h | h
    · subst h
      cases lookupKey key r.sprintData <;> rfl
    · have hnp : ¬ 0 < pts := by omega
      cases sp with
      | true => cases lookupKey key r.sprintData <;> rfl
      | false =>
        cases lookupKey key r.sprintData with
        | none => simp only [Bool.false_eq_true, if_false, if_neg hnp]
        | some e => simp only [Bool.false_eq_true, if_false, if_neg hnp]

theorem applySprintUpdate_lookup_ne {key k' : String} (hne : k' ≠ key) (sp : Bool)
    (assigns : List (Nat × Int × Int)) (i : Nat) (r : Rider) :
    lookupKey k' (applySprintUpdate key sp assigns i r).sprintData
        = lookupKey k' r.sprintData ∧
    lookupKey k' (applySprintUpdate key sp assigns i r).sprintDetails
        = lookupKey k' r.sprintDetails := by
  unfold applySprintUpdate
  cases lookupNat i assigns with
  | none => exact ⟨rfl, rfl⟩
  | some rp =>
    cases lookupKey key r.sprintData with
    | none =>
      cases sp with
      | true => exact ⟨rfl, rfl⟩
      | false =>
        by_cases h : 0 < rp.2
        · simp only [if_pos h, Bool.false_eq_true, if_false]
          exact ⟨trivial, lookupKey_setKey_ne hne _ _⟩
        · simp only [if_neg h, Bool.false_eq_true, if_false]
          exact ⟨trivial, trivial⟩
    | some e =>
      cases sp with
      | true =>
        refine ⟨lookupKey_setKey_ne hne _ _, ?_⟩
        simp only [if_true]
        exact lookupKey_setKey_ne hne _ _
      | false =>
        by_cases h : 0 < rp.2
        · simp only [if_pos h, Bool.false_eq_true, if_false]
          exact ⟨lookupKey_setKey_ne hne _ _, lookupKey_setKey_ne hne _ _⟩
        · simp only [if_neg h, Bool.false_eq_true, if_false]
          exact ⟨lookupKey_setKey_ne hne _ _, trivial⟩

theorem applySprintUpdate_at_key {key : String} {sp : Bool}
    {assigns : List (Nat × Int × Int)} {i : Nat} {r : Rider} {rk pts : Int}
    (ha : lookupNat i assigns = some (rk, pts)) {e : SprintEntry}
    (he : lookupKey key r.sprintData = some e) :
    lookupKey key (applySprintUpdate key sp assigns i r).sprintData
        = some { e with rank := rk } ∧
    (sp = true → lookupKey key (applySprintUpdate key sp assigns i r).sprintDetails
        = some e.worldTime) ∧
    (sp = false → pts ≤ 0 → lookupKey key (applySprintUpdate key sp assigns i r).sprintDetails
        = lookupKey key r.sprintDetails) := by
  unfold applySprintUpdate
  rw [ha, he]
  cases sp with
  | true =>
    refine ⟨?_, fun _ => ?_, fun h => by simp at h⟩
    · simp only [if_true]
      exact lookupKey_setKey_self _ _ _
    · simp only [if_true]
      exact lookupKey_setKey_self _ _ _
  | false =>
    by_cases h : 0 < pts
    · refine ⟨?_, fun h' => by simp at h', fun _ hle => by omega⟩
      simp only [if_pos h, Bool.false_eq_true, if_false]
      exact lookupKey_setKey_self _ _ _
    · refine ⟨?_, fun h' => by simp at h', fun _ _ => ?_⟩
      · simp only [if_neg h, Bool.false_eq_true, if_false]
        exact lookupKey_setKey_self _ _ _
      · simp only [if_neg h, Bool.false_eq_true, if_false]

theorem calcKeyStep_getElem? (scheme : List Int) (cfg : RaceData) (dqs dcl : List String)
    (l : List Rider) (key : String) (i : Nat) :
    (calcKeyStep scheme cfg dqs dcl l key)[i]? =
      l[i]?.map (applySprintUpdate key (segTypeFor cfg key == "split")
        (assignEfforts scheme (segTypeFor cfg key == "split") dqs dcl 1 0
          (List.insertionSort effortLe (collectEfforts key l))) i) := by
  unfold calcKeyStep
  exact enumMap_getElem? _ l i

theorem calcKeyStep_length (scheme : List Int) (cfg : RaceData) (dqs dcl : List String)
    (l : List Rider) (key : String) :
    (calcKeyStep scheme cfg dqs dcl l key).length = l.length := by
  unfold calcKeyStep
  rw [List.length_map, enumL_length]

theorem calcKeyStep_invalid_assign {scheme : List Int} {sp : Bool} {dqs dcl : List String}
    {l : List Rider} {key : String} {i : Nat} {r : Rider}
    (hl : l[i]? = some r)
    (hinv : (dqs.contains r.zwiftId || dcl.contains r.zwiftId) = true)
    {v : Int × Int}
    (hv : lookupNat i (assignEfforts scheme sp dqs dcl 1 0
      (List.insertionSort effortLe (collectEfforts key l))) = some v) :
    v = (0, 0) := by
  have hmem := lookupNat_mem hv
  rcases mem_assignEfforts hmem with ⟨z, e, hm, hp⟩
  have hm' : (i, z, e) ∈ collectEfforts key l :=
    (List.mem_insertionSort effortLe).mp hm
  rcases mem_collectEfforts hm' with ⟨r', hr', hz, _⟩
  rw [hl] at hr'
  have hr : r' = r := by injection hr' with h; exact h.symm
  subst hr
  simp only at hz
  rw [hz] at hp
  obtain ⟨h1, h2⟩ := hp hinv
  obtain ⟨v1, v2⟩ := v
  simp only at h1 h2
  rw [h1, h2]

theorem calcKeyStep_invalid_lookup {scheme : List Int} {dqs dcl : List String}
    {l : List Rider} {key : String} {i : Nat} {r : Rider} {e : SprintEntry}
    (hl : l[i]? = some r) (he : lookupKey key r.sprintData = some e)
    (hinv : (dqs.contains r.zwiftId || dcl.contains r.zwiftId) = true) (sp : Bool) :
    lookupNat i (assignEfforts scheme sp dqs dcl 1 0
      (List.insertionSort effortLe (collectEfforts key l))) = some (0, 0) := by
  have hmem : (i, r.zwiftId, e) ∈ collectEfforts key l := collectEfforts_mem_of hl he
  have hmem' : (i, r.zwiftId, e) ∈ List.insertionSort effortLe (collectEfforts key l) :=
    (List.mem_insertionSort effortLe).mpr hmem
  refine lookupNat_of_mem_nodup (assignEfforts_mem_invalid hinv 1 0 hmem') ?_
  rw [assignEfforts_map_fst]
  have hperm := (List.perm_insertionSort effortLe (collectEfforts key l)).map Prod.fst
  exact hperm.symm.nodup (collectEfforts_fst_nodup key l)

theorem foldKeys_pres (scheme : List Int) (cfg : RaceData) (dqs dcl : List String)
    (ks : List String) :
    ∀ (l : List Rider) (i : Nat) (r : Rider), l[i]? = some r →
    ∃ r', (ks.foldl (calcKeyStep scheme cfg dqs dcl) l)[i]? = some r' ∧ riderPres r r' ∧
      ((dqs.contains r.zwiftId || dcl.contains r.zwiftId) = true →
        r'.sprintPoints = r.sprintPoints) := by
  induction ks with
  | nil => intro l i r hl; exact ⟨r, hl, riderPres_refl r, fun _ => rfl⟩
  | cons k ks ih =>
    intro l i r hl
    have hstep : (calcKeyStep scheme cfg dqs dcl l k)[i]? =
        some (applySprintUpdate k (segTypeFor cfg k == "split")
          (assignEfforts scheme (segTypeFor cfg k == "split") dqs dcl 1 0
            (List.insertionSort effortLe (collectEfforts k l))) i r) := by
      rw [calcKeyStep_getElem?, hl, Option.map_some']
    rcases ih (calcKeyStep scheme cfg dqs dcl l k) i _ hstep with ⟨r', hr', hpres, hsp⟩
    refine ⟨r', hr', riderPres_trans (applySprintUpdate_pres _ _ _ _ _) hpres, ?_⟩
    intro hinv
    have h1 : (applySprintUpdate k (segTypeFor cfg k == "split")
        (assignEfforts scheme (segTypeFor cfg k == "split") dqs dcl 1 0
          (List.insertionSort effortLe (collectEfforts k l))) i r).sprintPoints
        = r.sprintPoints := by
      refine applySprintUpdate_sprintPoints _ _ _ _ _ ?_
      intro rk pts ha
      have := calcKeyStep_invalid_assign hl hinv ha
      right
      have hp : pts = 0 := congrArg Prod.snd this
      omega
    have hz : (applySprintUpdate k (segTypeFor cfg k == "split")
        (assignEfforts scheme (segTypeFor cfg k == "split") dqs dcl 1 0
          (List.insertionSort effortLe (collectEfforts k l))) i r).zwiftId = r.zwiftId :=
      (applySprintUpdate_pres _ _ _ _ _).1
    rw [hsp (by rw [hz]; exact hinv)]
    exact h1

theorem foldKeys_length (scheme : List Int) (cfg : RaceData) (dqs dcl : List String)
    (ks : List String) : ∀ (l : List Rider),
    (ks.foldl (calcKeyStep scheme cfg dqs dcl) l).length = l.length := by
  induction ks with
  | nil => intro l; rfl
  | cons k ks ih =>
    intro l
    rw [List.foldl_cons, ih, calcKeyStep_length]

theorem calcSprintPoints_pres {scheme : List Int} {cfg : RaceData} {dqs dcl : List String}
    {l : List Rider} {i : Nat} {r : Rider} (hl : l[i]? = some r) :
    ∃ r', (calcSprintPoints scheme cfg dqs dcl l)[i]? = some r' ∧ riderPres r r' ∧
      ((dqs.contains r.zwiftId || dcl.contains r.zwiftId) = true →
        r'.sprintPoints = r.sprintPoints) :=
  foldKeys_pres scheme cfg dqs dcl (allSprintKeys l) l i r hl

theorem calcSprintPoints_length (scheme : List Int) (cfg : RaceData) (dqs dcl : List String)
    (l : List Rider) : (calcSprintPoints scheme cfg dqs dcl l).length = l.length :=
  foldKeys_length scheme cfg dqs dcl (allSprintKeys l) l

/-! ### Helper lemmas: the finish-points phase -/

theorem enumFromN_map_comp (h : α → β) (n : Nat) (l : List α) :
    (enumFromN n l).map (fun q => h q.2) = l.map h := by
  induction l generalizing n with
  | nil => rfl
  | cons a t ih => simp [enumFromN, ih]

theorem countP_enumFromN (g : α → Bool) (n : Nat) (l : List α) :
    (enumFromN n l).countP (fun p => g p.2) = l.countP g := by
  induction l generalizing n with
  | nil => rfl
  | cons a t ih => by_cases h : g a <;> simp [enumFromN, List.countP_cons, ih, h]

theorem countP_eq_of_pointwise (p : α → Bool) :
    ∀ (l1 l2 : List α), l2.length = l1.length →
    (∀ (i : Nat) (x y : α), l1[i]? = some x → l2[i]? = some y → p x = p y) →
    l2.countP p = l1.countP p := by
  intro l1
  induction l1 with
  | nil =>
    intro l2 hlen _
    rw [List.length_nil] at hlen
    rw [List.eq_nil_of_length_eq_zero hlen]
  | cons a t1 ih =>
    intro l2 hlen h
    cases l2 with
    | nil => simp at hlen
    | cons b t2 =>
      simp only [List.length_cons, Nat.succ.injEq] at hlen
      have hab : p a = p b := h 0 a b (by simp) (by simp)
      have htail := ih t2 hlen (fun i x y hx hy => h (i + 1) x y (by simpa using hx) (by simpa using hy))
      rw [List.countP_cons, List.countP_cons, htail, hab]

theorem enumLMap_getElem? (g : Nat × α → β) (l : List α) (i : Nat) :
    ((enumL l).map g)[i]? = l[i]?.map (fun a => g (i, a)) := by
  rw [List.getElem?_map, enumL_getElem?]
  cases l[i]? <;> simp

theorem assignFinish_getElem? (scheme : List Int) (l : List Rider) (i : Nat) :
    (assignFinish scheme l)[i]? = l[i]?.map (fun r =>
      if r.declassified then
        { r with finishRank := (lastValidRank l : Int) + 1,
                 finishPoints := scheme.getD (lastValidRank l) 0 }
      else if r.disqualified then r
      else
        match lookupNat i (finishAssigns scheme
            (List.insertionSort finishLe ((enumL l).filter (fun p => isValidR p.2)))) with
        | some rp => { r with finishRank := rp.1, finishPoints := rp.2 }
        | none => r) := by
  unfold assignFinish
  exact enumLMap_getElem? _ l i

theorem assignFinish_length (scheme : List Int) (l : List Rider) :
    (assignFinish scheme l).length = l.length := by
  unfold assignFinish
  rw [List.length_map, enumL_length]

theorem assignFinish_pres {scheme : List Int} {l : List Rider} {i : Nat} {r : Rider}
    (hl : l[i]? = some r) :
    ∃ r', (assignFinish scheme l)[i]? = some r' ∧
      r'.zwiftId = r.zwiftId ∧ r'.name = r.name ∧ r'.finishTime = r.finishTime ∧
      r'.disqualified = r.disqualified ∧ r'.declassified = r.declassified ∧
      r'.sprintPoints = r.sprintPoints ∧ r'.sprintData = r.sprintData ∧
      r'.sprintDetails = r.sprintDetails ∧ r'.leaguePoints = r.leaguePoints := by
  rw [assignFinish_getElem?, hl, Option.map_some']
  refine ⟨_, rfl, ?_⟩
  split
  · exact ⟨rfl, rfl, rfl, rfl, rfl, rfl, rfl, rfl, rfl⟩
  · split
    · exact ⟨rfl, rfl, rfl, rfl, rfl, rfl, rfl, rfl, rfl⟩
    · split
      · exact ⟨rfl, rfl, rfl, rfl, rfl, rfl, rfl, rfl, rfl⟩
      · exact ⟨rfl, rfl, rfl, rfl, rfl, rfl, rfl, rfl, rfl⟩

theorem assignFinish_dq {scheme : List Int} {l : List Rider} {i : Nat} {r : Rider}
    (hl : l[i]? = some r) (h1 : r.declassified = false) (h2 : r.disqualified = true) :
    (assignFinish scheme l)[i]? = some r := by
  rw [assignFinish_getElem?, hl, Option.map_some', if_neg (by rw [h1]; simp),
      if_pos (by rw [h2])]

theorem assignFinish_declass {scheme : List Int} {l : List Rider} {i : Nat} {r : Rider}
    (hl : l[i]? = some r) (h1 : r.declassified = true) :
    (assignFinish scheme l)[i]? =
      some { r with finishRank := (lastValidRank l : Int) + 1,
                    finishPoints := scheme.getD (lastValidRank l) 0 } := by
  rw [assignFinish_getElem?, hl, Option.map_some', if_pos (by rw [h1])]

theorem sorted_finishers_prefix (L : List (Nat × Rider))
    (hs : List.Sorted finishLe L)
    (hsent : ∀ p ∈ L, p.2.finishTime < dnfSentinel) :
    ∃ L1 L2, L = L1 ++ L2 ∧ (∀ p ∈ L1, 0 < p.2.finishTime) ∧
      (∀ p ∈ L2, ¬ 0 < p.2.finishTime) := by
  induction L with
  | nil => exact ⟨[], [], rfl, by simp, by simp⟩
  | cons a t ih =>
    rw [List.sorted_cons] at hs
    rcases ih hs.2 (fun p hp => hsent p (List.mem_cons_of_mem _ hp)) with
      ⟨L1, L2, heq, h1, h2⟩
    by_cases ha : 0 < a.2.finishTime
    · refine ⟨a :: L1, L2, by rw [heq, List.cons_append], ?_, h2⟩
      intro p hp
      rcases List.mem_cons.mp hp with h | h
      · rw [h]; exact ha
      · exact h1 p h
    · have hL1 : L1 = [] := by
        rw [List.eq_nil_iff_forall_not_mem]
        intro p hp
        have hmem : p ∈ t := heq ▸ List.mem_append_left L2 hp
        have hle := hs.1 p hmem
        have hka : finishKey a.2 = dnfSentinel := if_neg ha
        have hkp : finishKey p.2 = p.2.finishTime := if_pos (h1 p hp)
        have hps := hsent p (List.mem_cons_of_mem _ hmem)
        unfold finishLe at hle
        rw [hka, hkp] at hle
        exact absurd hps (not_lt.mpr hle)
      subst hL1
      rw [List.nil_append] at heq
      refine ⟨[], a :: L2, by rw [heq, List.nil_append], by simp, ?_⟩
      intro p hp
      rcases List.mem_cons.mp hp with h | h
      · rw [h]; exact ha
      · exact h2 p h

theorem sorted_finisher_pos {L : List (Nat × Rider)} {j : Nat} {q : Nat × Rider}
    (hs : List.Sorted finishLe L) (hsent : ∀ p ∈ L, p.2.finishTime < dnfSentinel)
    (hj : L[j]? = some q) (hq : 0 < q.2.finishTime) :
    j < L.countP (fun p => decide (0 < p.2.finishTime)) := by
  rcases sorted_finishers_prefix L hs hsent with ⟨L1, L2, heq, h1, h2⟩
  subst heq
  have hcount : (L1 ++ L2).countP (fun p => decide (0 < p.2.finishTime)) = L1.length := by
    rw [List.countP_append]
    have c1 : L1.countP (fun p => decide (0 < p.2.finishTime)) = L1.length :=
      List.countP_eq_length.mpr (fun a ha => by simpa using h1 a ha)
    have c2 : L2.countP (fun p => decide (0 < p.2.finishTime)) = 0 :=
      List.countP_eq_zero.mpr (fun a ha => by simpa using h2 a ha)
    rw [c1, c2]
    omega
  rw [hcount]
  by_contra hge
  push_neg at hge
  rw [List.getElem?_append_right hge] at hj
  have hqm : q ∈ L2 := List.getElem?_mem hj
  exact absurd hq (h2 q hqm)

theorem finishAssigns_map_fst (scheme : List Int) (sorted : List (Nat × Rider)) :
    (finishAssigns scheme sorted).map Prod.fst = sorted.map Prod.fst := by
  unfold finishAssigns
  rw [List.map_map]
  have : (Prod.fst ∘ fun q : Nat × Nat × Rider =>
      if 0 < q.2.2.finishTime then (q.2.1, ((q.1 : Int) + 1, scheme.getD q.1 0))
      else (q.2.1, ((0 : Int), (0 : Int)))) = fun q => q.2.1 := by
    funext q
    by_cases h : 0 < q.2.2.finishTime <;> simp [h]
  rw [this, enumL]
  exact enumFromN_map_comp Prod.fst 0 sorted

theorem countP_sorted_eq_lastValidRank (l : List Rider) :
    (List.insertionSort finishLe ((enumL l).filter (fun p => isValidR p.2))).countP
      (fun p => decide (0 < p.2.finishTime)) = lastValidRank l := by
  rw [(List.perm_insertionSort finishLe _).countP_eq, List.countP_filter]
  rw [lastValidRank, ← List.countP_eq_length_filter]
  rw [enumL, countP_enumFromN (fun r => decide (0 < r.finishTime) && isValidR r) 0 l]
  exact List.countP_congr (fun r _ => by rw [Bool.and_comm])

theorem assignFinish_valid_points {scheme : List Int} {l : List Rider}
    (hsent : ∀ r ∈ l, r.finishTime < dnfSentinel) {i : Nat} {r : Rider}
    (hl : l[i]? = some r) (hval : isValidR r = true) (hft : 0 < r.finishTime) :
    ∃ j, j < lastValidRank l ∧
      (assignFinish scheme l)[i]? =
        some { r with finishRank := (j : Int) + 1, finishPoints := scheme.getD j 0 } := by
  have hflags : r.disqualified = false ∧ r.declassified = false := by
    rw [isValidR, Bool.and_eq_true, Bool.not_eq_true', Bool.not_eq_true'] at hval
    exact hval
  have hvm : (i, r) ∈ (enumL l).filter (fun p => isValidR p.2) :=
    List.mem_filter.mpr ⟨mem_enumL.mpr (by simpa using hl), hval⟩
  have hsm : (i, r) ∈ List.insertionSort finishLe ((enumL l).filter (fun p => isValidR p.2)) :=
    (List.mem_insertionSort finishLe).mpr hvm
  rcases List.mem_iff_getElem?.mp hsm with ⟨j, hj⟩
  have hsrt : List.Sorted finishLe
      (List.insertionSort finishLe ((enumL l).filter (fun p => isValidR p.2))) :=
    List.sorted_insertionSort finishLe _
  have hsent' : ∀ p ∈ List.insertionSort finishLe ((enumL l).filter (fun p => isValidR p.2)),
      p.2.finishTime < dnfSentinel := by
    intro p hp
    have hp1 : p ∈ (enumL l).filter (fun q => isValidR q.2) :=
      (List.mem_insertionSort finishLe).mp hp
    have hp2 : p ∈ enumL l := List.mem_of_mem_filter hp1
    have hp3 := mem_enumL.mp hp2
    exact hsent p.2 (List.getElem?_mem hp3)
  have hjlt := sorted_finisher_pos hsrt hsent' hj hft
  rw [countP_sorted_eq_lastValidRank] at hjlt
  refine ⟨j, hjlt, ?_⟩
  have hassign : (finishAssigns scheme
      (List.insertionSort finishLe ((enumL l).filter (fun p => isValidR p.2))))[j]? =
      some (i, ((j : Int) + 1, scheme.getD j 0)) := by
    unfold finishAssigns
    rw [enumLMap_getElem?, hj, Option.map_some']
    simp [hft]
  have hlook : lookupNat i (finishAssigns scheme
      (List.insertionSort finishLe ((enumL l).filter (fun p => isValidR p.2)))) =
      some ((j : Int) + 1, scheme.getD j 0) := by
    refine lookupNat_of_mem_nodup (List.getElem?_mem hassign) ?_
    rw [finishAssigns_map_fst]
    have hnodup0 : (((enumL l).filter (fun p => isValidR p.2)).map Prod.fst).Nodup :=
      ((List.filter_sublist _).map Prod.fst).nodup (enumL_map_fst_nodup l)
    exact ((List.perm_insertionSort finishLe _).map Prod.fst).symm.nodup hnodup0
  rw [assignFinish_getElem?, hl, Option.map_some', if_neg (by rw [hflags.2]; simp),
      if_neg (by rw [hflags.1]; simp), hlook]

/-! ### Helper lemmas: the scorer's league-points paths -/

theorem assignByIdx_getElem? (marked : List Rider) (assigns : List (Nat × Int)) (i : Nat) :
    (assignByIdx marked assigns)[i]? = marked[i]?.map (fun m =>
      match lookupNat i assigns with
      | some pts => { m with leaguePoints := some pts }
      | none => m) := by
  unfold assignByIdx
  exact enumLMap_getElem? _ marked i

theorem mem_assignByIdx {marked : List Rider} {assigns : List (Nat × Int)} {r : Rider}
    (h : r ∈ assignByIdx marked assigns) :
    ∃ i m, marked[i]? = some m ∧ r = (match lookupNat i assigns with
      | some pts => { m with leaguePoints := some pts }
      | none => m) := by
  rcases List.mem_iff_getElem?.mp h with ⟨i, hi⟩
  rw [assignByIdx_getElem?] at hi
  rcases Option.map_eq_some'.mp hi with ⟨m, hm, he⟩
  exact ⟨i, m, hm, he.symm⟩

theorem markRiderPoints_zwiftId (dqs exc : List String) (r : Rider) :
    (markRiderPoints dqs exc r).zwiftId = r.zwiftId := by
  unfold markRiderPoints
  split
  · rfl
  · split
    · rfl
    · split
      · rfl
      · rfl

theorem markRiderPoints_dq {dqs exc : List String} {r : Rider}
    (hdq : dqs.contains r.zwiftId = true) (hexc : exc.contains r.zwiftId = false) :
    markRiderPoints dqs exc r = { r with leaguePoints := some 0 } := by
  unfold markRiderPoints
  rw [if_neg (by rw [hexc]; simp), if_pos (by rw [hdq])]

theorem markRiderTT_zwiftId (splits : List SprintConfig) (dqs exc : List String) (r : Rider) :
    (markRiderTT splits dqs exc r).zwiftId = r.zwiftId := by
  unfold markRiderTT
  split
  · rfl
  · split
    · rfl
    · split
      · rfl
      · rfl

theorem markRiderTT_dq {splits : List SprintConfig} {dqs exc : List String} {r : Rider}
    (hdq : dqs.contains r.zwiftId = true) (hexc : exc.contains r.zwiftId = false) :
    markRiderTT splits dqs exc r = { r with leaguePoints := some 0 } := by
  unfold markRiderTT
  rw [if_neg (by rw [hexc]; simp), if_pos (by rw [hdq])]

theorem scorer_assign_none {γ : Type} {riders : List Rider}
    {g : (Nat × Rider) → Option (Nat × γ)} (hg : ∀ p y, g p = some y → y.1 = p.1)
    (le : (Nat × γ) → (Nat × γ) → Prop) [DecidableRel le]
    (lrp : List Int) {i : Nat} {r0 : Rider} (hi : riders[i]? = some r0)
    (hnone : g (i, r0) = none) :
    lookupNat i ((enumL (List.insertionSort le ((enumL riders).filterMap g))).map
      (fun q => (q.2.1, lrp.getD q.1 0))) = none := by
  apply lookupNat_eq_none
  rw [List.map_map, enumL]
  have hcomp : List.map (Prod.fst ∘ fun q : Nat × Nat × γ => (q.2.1, lrp.getD q.1 0))
      (enumFromN 0 (List.insertionSort le (List.filterMap g (enumL riders)))) =
      List.map (fun q : Nat × Nat × γ => q.2.1)
      (enumFromN 0 (List.insertionSort le (List.filterMap g (enumL riders)))) :=
    List.map_congr_left (fun q _ => rfl)
  rw [hcomp, enumFromN_map_comp]
  intro hmem
  rcases List.mem_map.mp hmem with ⟨c, hc, hc1⟩
  have hc' : c ∈ (enumL riders).filterMap g := (List.mem_insertionSort le).mp hc
  rcases List.mem_filterMap.mp hc' with ⟨p, hp, hgp⟩
  obtain ⟨p1, p2⟩ := p
  have hp1 : c.1 = p1 := hg (p1, p2) c hgp
  have hpi : p1 = i := by rw [← hp1, hc1]
  have hpr : riders[p1]? = some p2 := mem_enumL.mp hp
  rw [hpi, hi] at hpr
  have hp2 : p2 = r0 := by
    injection hpr with h
    exact h.symm
  rw [hpi, hp2, hnone] at hgp
  exact Option.noConfusion hgp

theorem scorerPointsRaceLP_dq {riders : List Rider} {lrp : List Int}
    {dqs dcl exc : List String} {r : Rider}
    (h : r ∈ scorerPointsRaceLP riders lrp dqs dcl exc)
    (hdq : dqs.contains r.zwiftId = true) (hexc : exc.contains r.zwiftId = false) :
    r.leaguePoints = some 0 := by
  unfold scorerPointsRaceLP at h
  rcases mem_assignByIdx h with ⟨i, m, hm, hr⟩
  rw [List.getElem?_map] at hm
  rcases Option.map_eq_some'.mp hm with ⟨r0, hr0, hmark⟩
  have hmatch : ∀ (o : Option Int), (match o with
      | some pts => { m with leaguePoints := some pts }
      | none => m).zwiftId = m.zwiftId := by
    intro o
    cases o <;> rfl
  have hzr : r.zwiftId = r0.zwiftId := by
    rw [hr, hmatch, ← hmark]
    exact markRiderPoints_zwiftId _ _ _
  rw [hzr] at hdq hexc
  have hnone : candPoints dqs dcl exc (i, r0) = none := by
    unfold candPoints
    rw [if_pos (by simp only [hdq, Bool.or_true])]
  have hlk := scorer_assign_none (fun p y hy => by
      unfold candPoints at hy
      split at hy
      · exact Option.noConfusion hy
      · split at hy
        · injection hy with hy'
          rw [← hy']
        · exact Option.noConfusion hy)
    rank3Ge lrp hr0 hnone
  rw [hlk] at hr
  rw [hr, ← hmark, markRiderPoints_dq hdq hexc]

theorem scorerTTLP_dq {riders : List Rider} {cfg : RaceData} {lrp : List Int}
    {dqs dcl exc : List String} {r : Rider}
    (h : r ∈ scorerTTLP riders cfg lrp dqs dcl exc)
    (hdq : dqs.contains r.zwiftId = true) (hexc : exc.contains r.zwiftId = false) :
    r.leaguePoints = some 0 := by
  unfold scorerTTLP at h
  rcases mem_assignByIdx h with ⟨i, m, hm, hr⟩
  rw [List.getElem?_map] at hm
  rcases Option.map_eq_some'.mp hm with ⟨r0, hr0, hmark⟩
  have hmatch : ∀ (o : Option Int), (match o with
      | some pts => { m with leaguePoints := some pts }
      | none => m).zwiftId = m.zwiftId := by
    intro o
    cases o <;> rfl
  have hzr : r.zwiftId = r0.zwiftId := by
    rw [hr, hmatch, ← hmark]
    exact markRiderTT_zwiftId _ _ _ _
  rw [hzr] at hdq hexc
  have hnone : candTT (scorerTTSplits cfg) dqs dcl exc (i, r0) = none := by
    unfold candTT
    rw [if_pos (by simp only [hdq, Bool.or_true])]
  have hlk := scorer_assign_none (fun p y hy => by
      unfold candTT at hy
      by_cases h1 : (exc.contains p.2.zwiftId || dqs.contains p.2.zwiftId) = true
      · rw [if_pos h1] at hy
        exact Option.noConfusion hy
      · rw [if_neg h1] at hy
        simp only at hy
        by_cases h2 : (decide (0 < p.2.finishTime)
            || (getFurthest (scorerTTSplits cfg) p.2).isSome) = true
        · rw [if_pos h2] at hy
          injection hy with hy'
          rw [← hy']
          rfl
        · rw [if_neg h2] at hy
          exact Option.noConfusion hy)
    ttLe lrp hr0 hnone
  rw [hlk] at hr
  rw [hr, ← hmark, markRiderTT_dq hdq hexc]

/-! ### Helper lemmas: the engine's dict-building folds -/

theorem foldl_step_pres {F : List (String × Int) → Rider → List (String × Int)}
    (hF : ∀ res x, F res x = res ∨ ∃ v, F res x = setKey x.zwiftId v res) {z : String} :
    ∀ (riders : List Rider) (base : List (String × Int)),
    (∀ x ∈ riders, x.zwiftId ≠ z) →
    lookupKey z (riders.foldl F base) = lookupKey z base := by
  intro riders
  induction riders with
  | nil => intro base _; rfl
  | cons x t ih =>
    intro base hall
    rw [List.foldl_cons, ih _ (fun y hy => hall y (List.mem_cons_of_mem _ hy))]
    rcases hF base x with h | ⟨v, h⟩
    · rw [h]
    · rw [h]
      exact lookupKey_setKey_ne (fun he => hall x (List.mem_cons_self _ _) he.symm) v base

theorem foldl_step_split {F : List (String × Int) → Rider → List (String × Int)}
    (hF : ∀ res x, F res x = res ∨ ∃ v, F res x = setKey x.zwiftId v res)
    {pre post : List Rider} {r : Rider}
    (hne2 : ∀ x ∈ post, x.zwiftId ≠ r.zwiftId) (base : List (String × Int)) :
    lookupKey r.zwiftId ((pre ++ r :: post).foldl F base) =
      lookupKey r.zwiftId (F (pre.foldl F base) r) := by
  rw [List.foldl_append, List.foldl_cons]
  exact foldl_step_pres hF post _ hne2

theorem foldl_dqz_lookup {F : List (String × Int) → Rider → List (String × Int)} {z : String}
    (hFz : ∀ res x, x.zwiftId = z → F res x = setKey z 0 res)
    (hFne : ∀ res x, x.zwiftId ≠ z → lookupKey z (F res x) = lookupKey z res) :
    ∀ (riders : List Rider) (base : List (String × Int)),
    ((∃ r ∈ riders, r.zwiftId = z) ∨ lookupKey z base = some 0) →
    lookupKey z (riders.foldl F base) = some 0 := by
  intro riders
  induction riders with
  | nil =>
    intro base h
    rcases h with ⟨r, hr, _⟩ | h
    · simp at hr
    · exact h
  | cons x t ih =>
    intro base h
    rw [List.foldl_cons]
    by_cases hx : x.zwiftId = z
    · apply ih
      right
      rw [hFz base x hx]
      exact lookupKey_setKey_self z 0 base
    · apply ih
      rcases h with ⟨r, hr, hrz⟩ | h
      · rcases List.mem_cons.mp hr with he | hm
        · exact absurd (he ▸ hrz) hx
        · exact Or.inl ⟨r, hm, hrz⟩
      · right
        rw [hFne base x hx]
        exact h

theorem foldl_assign_lookup_ne {γ : Type} {z : String} {lrp : List Int} :
    ∀ (sorted : List (String × γ)) (n : Nat) (base : List (String × Int)),
    (∀ c ∈ sorted, c.1 ≠ z) →
    lookupKey z ((enumFromN n sorted).foldl
      (fun res q => setKey q.2.1 (lrp.getD q.1 0) res) base) = lookupKey z base := by
  intro sorted
  induction sorted with
  | nil => intro n base _; rfl
  | cons c t ih =>
    intro n base hc
    rw [enumFromN, List.foldl_cons, ih (n + 1) _ (fun x hx => hc x (List.mem_cons_of_mem _ hx))]
    exact lookupKey_setKey_ne (fun he => hc c (List.mem_cons_self _ _) he.symm) _ _

theorem foldl_assign_lookup_ne' {γ : Type} {z : String} {lrp : List Int}
    (sorted : List (String × γ)) (base : List (String × Int))
    (h : ∀ c ∈ sorted, c.1 ≠ z) :
    lookupKey z ((enumL sorted).foldl
      (fun res q => setKey q.2.1 (lrp.getD q.1 0) res) base) = lookupKey z base :=
  foldl_assign_lookup_ne sorted 0 base h

theorem engineBase_dq {dqs exc : List String} {z : String}
    (hdq : dqs.contains z = true) (hexc : exc.contains z = false)
    (riders : List Rider) (h : ∃ r ∈ riders, r.zwiftId = z) :
    lookupKey z (riders.foldl (fun res r =>
      if exc.contains r.zwiftId then res
      else if dqs.contains r.zwiftId then setKey r.zwiftId (0 : Int) res
      else res) []) = some 0 := by
  exact foldl_dqz_lookup (F := fun res r =>
      if exc.contains r.zwiftId then res
      else if dqs.contains r.zwiftId then setKey r.zwiftId (0 : Int) res
      else res)
    (fun res x hx => by
      dsimp only
      rw [hx, if_neg (by rw [hexc]; simp), if_pos hdq])
    (fun res x hx => by
      dsimp only
      by_cases h1 : exc.contains x.zwiftId = true
      · rw [if_pos h1]
      · rw [if_neg h1]
        by_cases h2 : dqs.contains x.zwiftId = true
        · rw [if_pos h2]
          exact lookupKey_setKey_ne (fun he => hx he.symm) 0 res
        · rw [if_neg h2])
    riders [] (Or.inl h)

theorem engineScratchLP_dq {lrp : List Int} {riders : List Rider}
    {dqs dcl exc : List String} {r : Rider} (hr : r ∈ riders)
    (hdq : dqs.contains r.zwiftId = true) (hexc : exc.contains r.zwiftId = false) :
    lookupKey r.zwiftId (engineScratchLP lrp riders dqs dcl exc) = some 0 := by
  unfold engineScratchLP
  refine Eq.trans (foldl_assign_lookup_ne' _ _ ?_)
    (engineBase_dq hdq hexc riders ⟨r, hr, rfl⟩)
  intro c hc hcz
  have hc' := (List.mem_insertionSort scratchLe).mp hc
  rcases List.mem_filterMap.mp hc' with ⟨x, hx, hgx⟩
  by_cases h1 : (exc.contains x.zwiftId || dqs.contains x.zwiftId) = true
  · rw [if_pos h1] at hgx
    exact Option.noConfusion hgx
  · rw [if_neg h1] at hgx
    by_cases h2 : (decide (0 < x.finishTime)) = true
    · rw [if_pos h2] at hgx
      injection hgx with hgx'
      have hxz : x.zwiftId = r.zwiftId := by rw [← hcz, ← hgx']
      rw [hxz, hdq] at h1
      simp at h1
    · rw [if_neg h2] at hgx
      exact Option.noConfusion hgx

theorem enginePointsLP_dq {lrp : List Int} {riders : List Rider}
    {dqs dcl exc : List String} {r : Rider} (hr : r ∈ riders)
    (hdq : dqs.contains r.zwiftId = true) (hexc : exc.contains r.zwiftId = false) :
    lookupKey r.zwiftId (enginePointsLP lrp riders dqs dcl exc) = some 0 := by
  unfold enginePointsLP
  refine Eq.trans (foldl_assign_lookup_ne' _ _ ?_)
    (engineBase_dq hdq hexc riders ⟨r, hr, rfl⟩)
  intro c hc hcz
  have hc' := (List.mem_insertionSort rank3Ge).mp hc
  rcases List.mem_filterMap.mp hc' with ⟨x, hx, hgx⟩
  by_cases h1 : (exc.contains x.zwiftId || dqs.contains x.zwiftId) = true
  · rw [if_pos h1] at hgx
    exact Option.noConfusion hgx
  · rw [if_neg h1] at hgx
    by_cases h2 : (decide (0 < x.finishTime) || decide (0 < x.totalPoints)
        || !x.sprintData.isEmpty) = true
    · rw [if_pos h2] at hgx
      injection hgx with hgx'
      have hxz : x.zwiftId = r.zwiftId := by rw [← hcz, ← hgx']
      rw [hxz, hdq] at h1
      simp at h1
    · rw [if_neg h2] at hgx
      exact Option.noConfusion hgx

theorem engineTTLP_dq {lrp : List Int} {riders : List Rider} {rd : RaceData}
    {cat : String} {dqs dcl exc : List String} {r : Rider} (hr : r ∈ riders)
    (hdq : dqs.contains r.zwiftId = true) (hexc : exc.contains r.zwiftId = false) :
    lookupKey r.zwiftId (engineTTLP lrp riders rd cat dqs dcl exc) = some 0 := by
  unfold engineTTLP
  refine Eq.trans (foldl_assign_lookup_ne' _ _ ?_)
    (engineBase_dq hdq hexc riders ⟨r, hr, rfl⟩)
  intro c hc hcz
  have hc' := (List.mem_insertionSort ttLe).mp hc
  rcases List.mem_filterMap.mp hc' with ⟨x, hx, hgx⟩
  by_cases h1 : (exc.contains x.zwiftId || dqs.contains x.zwiftId) = true
  · rw [if_pos h1] at hgx
    exact Option.noConfusion hgx
  · rw [if_neg h1] at hgx
    simp only at hgx
    by_cases h2 : (decide (0 < x.finishTime)
        || (getFurthest (engineTTSplits rd cat) x).isSome) = true
    · rw [if_pos h2] at hgx
      injection hgx with hgx'
      have hxz : x.zwiftId = r.zwiftId := by
        rw [← hcz, ← hgx']
        rfl
      rw [hxz, hdq] at h1
      simp at h1
    · rw [if_neg h2] at hgx
      exact Option.noConfusion hgx

theorem engineFallbackLP_dq {fps : List Int} {riders : List Rider}
    {dqs dcl exc : List String} {r : Rider} (hr : r ∈ riders)
    (hdq : dqs.contains r.zwiftId = true) (hexc : exc.contains r.zwiftId = false) :
    lookupKey r.zwiftId (engineFallbackLP fps riders dqs dcl exc) = some 0 := by
  unfold engineFallbackLP
  exact foldl_dqz_lookup (F := fun res x =>
      if exc.contains x.zwiftId then res
      else if dqs.contains x.zwiftId then setKey x.zwiftId 0 res
      else if dcl.contains x.zwiftId then
        setKey x.zwiftId (fps.getD ((riders.filter (fun x =>
          !(dqs.contains x.zwiftId) && !(dcl.contains x.zwiftId))).length) 0) res
      else if decide (0 < x.totalPoints) || decide (0 < x.finishTime)
              || !x.sprintData.isEmpty then
        setKey x.zwiftId x.totalPoints res
      else res)
    (fun res x hx => by
      dsimp only
      rw [hx, if_neg (by rw [hexc]; simp), if_pos hdq])
    (fun res x hx => by
      dsimp only
      have hne : ∀ (v : Int), lookupKey r.zwiftId (setKey x.zwiftId v res)
          = lookupKey r.zwiftId res :=
        fun v => lookupKey_setKey_ne (fun he => hx he.symm) v res
      by_cases h1 : exc.contains x.zwiftId = true
      · rw [if_pos h1]
      · rw [if_neg h1]
        by_cases h2 : dqs.contains x.zwiftId = true
        · rw [if_pos h2]
          exact hne 0
        · rw [if_neg h2]
          by_cases h3 : dcl.contains x.zwiftId = true
          · rw [if_pos h3]
            exact hne _
          · rw [if_neg h3]
            by_cases h4 : (decide (0 < x.totalPoints) || decide (0 < x.finishTime)
                || !x.sprintData.isEmpty) = true
            · rw [if_pos h4]
              exact hne _
            · rw [if_neg h4])
    riders [] (Or.inl ⟨r, hr, rfl⟩)

theorem engineRaceLP_dq {st : LeagueSettings} {riders : List Rider} {rd : RaceData}
    {cat rtype : String} {dqs dcl exc : List String} {r : Rider} (hr : r ∈ riders)
    (hdq : dqs.contains r.zwiftId = true) (hexc : exc.contains r.zwiftId = false) :
    lookupKey r.zwiftId (engineRaceLP st riders rd cat rtype dqs dcl exc) = some 0 := by
  unfold engineRaceLP
  by_cases h0 : st.leagueRankPoints.isEmpty
  · rw [if_pos h0]
    exact engineFallbackLP_dq hr hdq hexc
  · rw [if_neg h0]
    by_cases h1 : rtype = "time-trial"
    · rw [if_pos h1]
      exact engineTTLP_dq hr hdq hexc
    · rw [if_neg h1]
      by_cases h2 : rtype = "scratch"
      · rw [if_pos h2]
        exact engineScratchLP_dq hr hdq hexc
      · rw [if_neg h2]
        exact enginePointsLP_dq hr hdq hexc

/-! ### Key-tracking through the sprint fold (for C10) -/

theorem foldKeys_entry_tracking (scheme : List Int) (cfg : RaceData) (dqs dcl : List String)
    (key : String) :
    ∀ (ks : List String), key ∉ ks →
    ∀ (l : List Rider) (i : Nat) (r : Rider), l[i]? = some r →
    ∃ r', (ks.foldl (calcKeyStep scheme cfg dqs dcl) l)[i]? = some r' ∧ riderPres r r' ∧
      lookupKey key r'.sprintData = lookupKey key r.sprintData ∧
      lookupKey key r'.sprintDetails = lookupKey key r.sprintDetails ∧
      ((dqs.contains r.zwiftId || dcl.contains r.zwiftId) = true →
        r'.sprintPoints = r.sprintPoints) := by
  intro ks
  induction ks with
  | nil =>
    intro _ l i r hl
    exact ⟨r, hl, riderPres_refl r, rfl, rfl, fun _ => rfl⟩
  | cons k ks ih =>
    intro hk l i r hl
    have hkk : key ≠ k := fun he => hk (he ▸ List.mem_cons_self _ _)
    have hkks : key ∉ ks := fun hm => hk (List.mem_cons_of_mem _ hm)
    set sp := (segTypeFor cfg k == "split") with hsp
    set assigns := assignEfforts scheme sp dqs dcl 1 0
      (List.insertionSort effortLe (collectEfforts k l)) with hassigns
    have hstep : (calcKeyStep scheme cfg dqs dcl l k)[i]? =
        some (applySprintUpdate k sp assigns i r) := by
      rw [calcKeyStep_getElem?, hl, Option.map_some']
    rcases ih hkks (calcKeyStep scheme cfg dqs dcl l k) i _ hstep with
      ⟨r', hr', hpres, hdata, hdet, hsp2⟩
    have hlkne := applySprintUpdate_lookup_ne hkk sp assigns i r
    have hpres1 := applySprintUpdate_pres k sp assigns i r
    refine ⟨r', hr', riderPres_trans hpres1 hpres, ?_, ?_, ?_⟩
    · rw [hdata, hlkne.1]
    · rw [hdet, hlkne.2]
    · intro hinv
      have hsp1 : (applySprintUpdate k sp assigns i r).sprintPoints = r.sprintPoints := by
        refine applySprintUpdate_sprintPoints _ _ _ _ _ ?_
        intro rk pts ha
        have hv := calcKeyStep_invalid_assign hl hinv ha
        right
        have hp : pts = 0 := congrArg Prod.snd hv
        omega
      rw [hsp2 (by rw [hpres1.1]; exact hinv), hsp1]

theorem foldKeys_c10 (scheme : List Int) (cfg : RaceData) (dqs dcl : List String)
    (key : String) :
    ∀ (ks : List String), ks.Nodup → key ∈ ks →
    ∀ (l : List Rider) (i : Nat) (r : Rider) (e : SprintEntry),
    l[i]? = some r → lookupKey key r.sprintData = some e →
    (dqs.contains r.zwiftId || dcl.contains r.zwiftId) = true →
    ∃ r', (ks.foldl (calcKeyStep scheme cfg dqs dcl) l)[i]? = some r' ∧
      lookupKey key r'.sprintData = some { e with rank := 0 } ∧
      (segTypeFor cfg key = "split" → lookupKey key r'.sprintDetails = some e.worldTime) ∧
      (¬ segTypeFor cfg key = "split" →
        lookupKey key r'.sprintDetails = lookupKey key r.sprintDetails) ∧
      r'.sprintPoints = r.sprintPoints := by
  intro ks
  induction ks with
  | nil =>
    intro _ hk
    simp at hk
  | cons k ks ih =>
    intro hnd hk l i r e hl he hinv
    rw [List.nodup_cons] at hnd
    by_cases hke : key = k
    · subst hke
      set sp := (segTypeFor cfg key == "split") with hsp
      set assigns := assignEfforts scheme sp dqs dcl 1 0
        (List.insertionSort effortLe (collectEfforts key l)) with hassigns
      have hlook : lookupNat i assigns = some (0, 0) :=
        calcKeyStep_invalid_lookup hl he hinv sp
      have hstep : (calcKeyStep scheme cfg dqs dcl l key)[i]? =
          some (applySprintUpdate key sp assigns i r) := by
        rw [calcKeyStep_getElem?, hl, Option.map_some']
      have hat := @applySprintUpdate_at_key key sp assigns i r 0 0 hlook e he
      have hsp0 : (applySprintUpdate key sp assigns i r).sprintPoints = r.sprintPoints := by
        refine applySprintUpdate_sprintPoints _ _ _ _ _ ?_
        intro rk pts ha
        rw [hlook] at ha
        injection ha with ha'
        right
        have hp : pts = 0 := (congrArg Prod.snd ha').symm
        omega
      rcases foldKeys_entry_tracking scheme cfg dqs dcl key ks hnd.1 _ i _ hstep with
        ⟨r', hr', hpres, hdata, hdet, hsp2⟩
      refine ⟨r', hr', ?_, ?_, ?_, ?_⟩
      · rw [hdata, hat.1]
      · intro hsplit
        rw [hdet]
        exact hat.2.1 (by rw [hsp]; simp [hsplit])
      · intro hnsplit
        rw [hdet]
        exact hat.2.2 (by rw [hsp]; simp [hnsplit]) (le_refl 0)
      · rw [hsp2 (by rw [(applySprintUpdate_pres key sp assigns i r).1]; exact hinv), hsp0]
    · have hkmem : key ∈ ks := by
        rcases List.mem_cons.mp hk with h | h
        · exact absurd h hke
        · exact h
      set sp := (segTypeFor cfg k == "split") with hsp
      set assigns := assignEfforts scheme sp dqs dcl 1 0
        (List.insertionSort effortLe (collectEfforts k l)) with hassigns
      have hstep : (calcKeyStep scheme cfg dqs dcl l k)[i]? =
          some (applySprintUpdate k sp assigns i r) := by
        rw [calcKeyStep_getElem?, hl, Option.map_some']
      have hlkne := applySprintUpdate_lookup_ne hke sp assigns i r
      have hpres1 := applySprintUpdate_pres k sp assigns i r
      have hsp1 : (applySprintUpdate k sp assigns i r).sprintPoints = r.sprintPoints := by
        refine applySprintUpdate_sprintPoints _ _ _ _ _ ?_
        intro rk pts ha
        have hv := calcKeyStep_invalid_assign hl hinv ha
        right
        have hp : pts = 0 := congrArg Prod.snd hv
        omega
      have hinv1 : (dqs.contains (applySprintUpdate k sp assigns i r).zwiftId
          || dcl.contains (applySprintUpdate k sp assigns i r).zwiftId) = true := by
        rw [hpres1.1]
        exact hinv
      have hdata1 : lookupKey key (applySprintUpdate k sp assigns i r).sprintData = some e := by
        rw [hlkne.1, he]
      rcases ih hnd.2 hkmem _ i _ e hstep hdata1 hinv1 with ⟨r', hr', h2, h3, h4, h5⟩
      refine ⟨r', hr', h2, h3, ?_, ?_⟩
      · intro hnsplit
        rw [h4 hnsplit, hlkne.2]
      · rw [h5, hsp1]

/-! ### Claim theorems: C1, C2, C10 -/

/-- C10: in `_calculate_sprint_points`, a DQ or declassified rider with
crossing data for a key still gets `sprintData[key]['rank'] = 0`; for a
`split`-type key the crossing `worldTime` is written to
`sprintDetails[key]`, while for a `sprint`-type key the rider's
`sprintDetails` entry is left untouched and the rider's `sprintPoints`
are unchanged (no sprint points are contributed). -/
theorem C10_theorem (scheme : List Int) (cfg : RaceData) (dqs dcl : List String)
    (l : List Rider) (i : Nat) (r : Rider) (e : SprintEntry) (key : String)
    (hl : l[i]? = some r) (he : lookupKey key r.sprintData = some e)
    (hinv : (dqs.contains r.zwiftId || dcl.contains r.zwiftId) = true) :
    ∃ r', (calcSprintPoints scheme cfg dqs dcl l)[i]? = some r' ∧
      lookupKey key r'.sprintData = some { e with rank := 0 } ∧
      (segTypeFor cfg key = "split" → lookupKey key r'.sprintDetails = some e.worldTime) ∧
      (¬ segTypeFor cfg key = "split" →
        lookupKey key r'.sprintDetails = lookupKey key r.sprintDetails) ∧
      r'.sprintPoints = r.sprintPoints := by
  have hkey : key ∈ allSprintKeys l := by
    rw [allSprintKeys, List.mem_dedup]
    refine List.mem_flatten.mpr ⟨r.sprintData.map Prod.fst, ?_, ?_⟩
    · exact List.mem_map_of_mem _ (List.getElem?_mem hl)
    · exact List.mem_map_of_mem Prod.fst (lookupKey_mem he)
  exact foldKeys_c10 scheme cfg dqs dcl key (allSprintKeys l) (List.nodup_dedup _) hkey
    l i r e hl he hinv

/-- C10 witness: a DQ rider with a crossing at key `k1` in a race whose
global segment type is `split` keeps the crossing time in
`sprintDetails` with rank 0; in a `sprint`-type race the same rider gets
no `sprintDetails` entry and no sprint points. -/
theorem C10_witness :
    (∃ r', (calcSprintPoints [5] c10SplitCfg ["Q"] [] [c10R, c10V])[0]? = some r' ∧
      lookupKey "k1" r'.sprintData = some { worldTime := 77, rank := 0 } ∧
      (segTypeFor c10SplitCfg "k1" = "split" →
        lookupKey "k1" r'.sprintDetails = some 77) ∧
      (¬ segTypeFor c10SplitCfg "k1" = "split" →
        lookupKey "k1" r'.sprintDetails = lookupKey "k1" c10R.sprintDetails) ∧
      r'.sprintPoints = c10R.sprintPoints) ∧
    (∃ r', (calcSprintPoints [5] ({} : RaceData) ["Q"] [] [c10R, c10V])[0]? = some r' ∧
      lookupKey "k1" r'.sprintData = some { worldTime := 77, rank := 0 } ∧
      (segTypeFor ({} : RaceData) "k1" = "split" →
        lookupKey "k1" r'.sprintDetails = some 77) ∧
      (¬ segTypeFor ({} : RaceData) "k1" = "split" →
        lookupKey "k1" r'.sprintDetails = lookupKey "k1" c10R.sprintDetails) ∧
      r'.sprintPoints = c10R.sprintPoints) := by
  constructor
  · exact C10_theorem [5] c10SplitCfg ["Q"] [] [c10R, c10V] 0 c10R { worldTime := 77 } "k1"
      (by decide) (by decide) (by decide)
  · exact C10_theorem [5] ({} : RaceData) ["Q"] [] [c10R, c10V] 0 c10R { worldTime := 77 } "k1"
      (by decide) (by decide) (by decide)

/-- C1 (amended): the sprint ranking loop assigns strictly sequential
ranks and scheme slots in `worldTime` order even when `worldTime`s are
tied: when every effort belongs to a valid rider, the effort at sorted
position `i` gets rank `1 + i` and points `sprintPointsScheme[i]` (0 past
the end); tied riders do not share a rank or a points value. -/
theorem C1_theorem (scheme : List Int) (dqs dcl : List String)
    (efforts : List (Nat × String × SprintEntry))
    (hv : ∀ x ∈ efforts, dqs.contains x.2.1 = false ∧ dcl.contains x.2.1 = false)
    (i : Nat) :
    (assignEfforts scheme false dqs dcl 1 0 efforts)[i]? =
      (efforts[i]?).map (fun x => (x.1, 1 + (i : Int), scheme.getD i 0)) := by
  have h := assignEfforts_getElem?_valid scheme dqs dcl efforts hv 1 0 i
  simpa using h

/-- C1 witness: for the tied crossings A@100, B@100, C@105 with scheme
[5,3,2], the rider at sorted position 1 (B) gets rank 2 and 3 points —
not a shared rank 1 with 5 points. -/
theorem C1_witness :
    (∀ x ∈ c1Efforts, (([] : List String).contains x.2.1 = false ∧
        (([] : List String)).contains x.2.1 = false)) ∧
    (assignEfforts [5, 3, 2] false [] [] 1 0 c1Efforts)[1]? =
      (c1Efforts[1]?).map (fun x => (x.1, 1 + (1 : Int), ([5, 3, 2] : List Int).getD 1 0)) := by
  exact ⟨by decide, C1_theorem [5, 3, 2] [] [] c1Efforts (by decide) 1⟩

/-- C1 counterexample: with crossings A@100, B@100, C@105 and
`sprintPointsScheme = [5,3,2]`, the code gives B rank 2 and 3 points,
not the claimed shared rank 1 with 5 points. -/
theorem C1_counterexample :
    ((c1Out[1]?).map (fun r =>
      ((lookupKey "s_1" r.sprintData).map SprintEntry.rank, lookupKey "s_1" r.sprintDetails))
      = some (some 2, some 3)) ∧
    ¬ ((c1Out[1]?).map (fun r =>
      ((lookupKey "s_1" r.sprintData).map SprintEntry.rank, lookupKey "s_1" r.sprintDetails))
      = some (some 1, some 5)) := by
  decide

/-! ### calculate_results plumbing -/

theorem resetRider_fields (dqs dcl : List String) (r : Rider) :
    (resetRider dqs dcl r).zwiftId = r.zwiftId ∧
    (resetRider dqs dcl r).finishTime = r.finishTime ∧
    (resetRider dqs dcl r).finishPoints = 0 ∧
    (resetRider dqs dcl r).sprintPoints = 0 ∧
    (resetRider dqs dcl r).disqualified = dqs.contains r.zwiftId ∧
    (resetRider dqs dcl r).declassified =
      (!(dqs.contains r.zwiftId) && dcl.contains r.zwiftId) := by
  unfold resetRider
  by_cases h1 : dqs.contains r.zwiftId = true
  · rw [if_pos h1]
    refine ⟨rfl, rfl, rfl, rfl, h1.symm, ?_⟩
    rw [h1]
    rfl
  · have h1' : dqs.contains r.zwiftId = false := by simpa using h1
    rw [if_neg h1]
    by_cases h2 : dcl.contains r.zwiftId = true
    · rw [if_pos h2]
      refine ⟨rfl, rfl, rfl, rfl, h1'.symm, ?_⟩
      rw [h1', h2]
      rfl
    · have h2' : dcl.contains r.zwiftId = false := by simpa using h2
      rw [if_neg h2]
      refine ⟨rfl, rfl, rfl, rfl, h1'.symm, ?_⟩
      rw [h1', h2']
      rfl

theorem mem_calculateResults_iff {sc : RaceScorer} {riders : List Rider} {cfg : RaceData}
    {r : Rider} :
    r ∈ calculateResults sc riders cfg ↔
    ∃ r2 ∈ calcSprintPoints sc.sprintPointsScheme cfg cfg.manualDQs
        cfg.manualDeclassifications
        (assignFinish sc.finishPointsScheme
          ((riders.filter (fun x => !(cfg.manualExclusions.contains x.zwiftId))).map
            (resetRider cfg.manualDQs cfg.manualDeclassifications))),
      r = { r2 with totalPoints := r2.finishPoints + r2.sprintPoints } := by
  unfold calculateResults
  rw [List.mem_insertionSort, List.mem_map]
  constructor
  · rintro ⟨r2, hm, he⟩
    exact ⟨r2, hm, he.symm⟩
  · rintro ⟨r2, hm, he⟩
    exact ⟨r2, hm, he.symm⟩

/-- Walks one output rider of `calculate_results` back to its source
rider in the active (non-excluded) list, giving the classified rider, the
finish-assigned rider and the sprint-phase rider at the same position. -/
theorem calculateResults_chain {sc : RaceScorer} {riders : List Rider} {cfg : RaceData}
    {r : Rider} (h : r ∈ calculateResults sc riders cfg) :
    ∃ (i : Nat) (r0 r1 r2 : Rider),
      (riders.filter (fun x => !(cfg.manualExclusions.contains x.zwiftId)))[i]? = some r0 ∧
      (assignFinish sc.finishPointsScheme
        ((riders.filter (fun x => !(cfg.manualExclusions.contains x.zwiftId))).map
          (resetRider cfg.manualDQs cfg.manualDeclassifications)))[i]? = some r1 ∧
      (calcSprintPoints sc.sprintPointsScheme cfg cfg.manualDQs cfg.manualDeclassifications
        (assignFinish sc.finishPointsScheme
          ((riders.filter (fun x => !(cfg.manualExclusions.contains x.zwiftId))).map
            (resetRider cfg.manualDQs cfg.manualDeclassifications))))[i]? = some r2 ∧
      riderPres r1 r2 ∧
      ((cfg.manualDQs.contains r1.zwiftId || cfg.manualDeclassifications.contains r1.zwiftId)
        = true → r2.sprintPoints = r1.sprintPoints) ∧
      r = { r2 with totalPoints := r2.finishPoints + r2.sprintPoints } := by
  rcases mem_calculateResults_iff.mp h with ⟨r2, hm2, hr⟩
  rcases List.mem_iff_getElem?.mp hm2 with ⟨i, hi2⟩
  have hilt : i < (assignFinish sc.finishPointsScheme
      ((riders.filter (fun x => !(cfg.manualExclusions.contains x.zwiftId))).map
        (resetRider cfg.manualDQs cfg.manualDeclassifications))).length := by
    have h1 := (List.getElem?_eq_some.mp hi2).1
    rwa [calcSprintPoints_length] at h1
  have hi1 : ∃ r1, (assignFinish sc.finishPointsScheme
      ((riders.filter (fun x => !(cfg.manualExclusions.contains x.zwiftId))).map
        (resetRider cfg.manualDQs cfg.manualDeclassifications)))[i]? = some r1 := by
    rw [List.getElem?_eq_getElem hilt]
    exact ⟨_, rfl⟩
  rcases hi1 with ⟨r1, hi1⟩
  have hi0 : ∃ r0,
      (riders.filter (fun x => !(cfg.manualExclusions.contains x.zwiftId)))[i]? = some r0 := by
    have h2 : i < (riders.filter (fun x => !(cfg.manualExclusions.contains x.zwiftId))).length := by
      have h3 := hilt
      rw [assignFinish_length, List.length_map] at h3
      exact h3
    rw [List.getElem?_eq_getElem h2]
    exact ⟨_, rfl⟩
  rcases hi0 with ⟨r0, hi0⟩
  rcases calcSprintPoints_pres hi1 with ⟨r2', hi2', hpres, hsp⟩
  have hr2 : r2' = r2 := by
    rw [hi2] at hi2'
    injection hi2' with h'
    exact h'.symm
  exact ⟨i, r0, r1, r2, hi0, hi1, hi2, hr2 ▸ hpres, hr2 ▸ hsp, hr⟩

/-- C2 (amended): a DQ rider (not excluded) always has `totalPoints = 0`
in the result list of `calculate_results`; their per-race league points
are 0 from the scorer's `calculate_league_points` whenever a non-empty
`leagueRankPoints` scheme is configured (any race type), and from the
league engine's `_calculate_race_league_points` for both empty and
non-empty schemes; with an empty scheme the scorer instead sets
`leaguePoints` to `None` for every rider, DQ included. -/
theorem C2_theorem :
    (∀ (sc : RaceScorer) (riders : List Rider) (cfg : RaceData) (r : Rider),
      r ∈ calculateResults sc riders cfg → cfg.manualDQs.contains r.zwiftId = true →
      r.totalPoints = 0) ∧
    (∀ (riders : List Rider) (cfg : RaceData) (lrp : List Int) (r : Rider),
      lrp ≠ [] → r ∈ scorerCalcLeaguePoints riders cfg lrp →
      cfg.manualDQs.contains r.zwiftId = true →
      cfg.manualExclusions.contains r.zwiftId = false →
      r.leaguePoints = some 0) ∧
    (∀ (st : LeagueSettings) (riders : List Rider) (rd : RaceData) (cat rtype : String)
      (dqs dcl exc : List String) (r : Rider),
      r ∈ riders → dqs.contains r.zwiftId = true → exc.contains r.zwiftId = false →
      lookupKey r.zwiftId (engineRaceLP st riders rd cat rtype dqs dcl exc) = some 0) := by
  refine ⟨?_, ?_, ?_⟩
  · intro sc riders cfg r h hdq
    rcases calculateResults_chain h with ⟨i, r0, r1, r2, hi0, hi1, hi2, hpres, hsp, hr⟩
    have hic : ((riders.filter (fun x => !(cfg.manualExclusions.contains x.zwiftId))).map
        (resetRider cfg.manualDQs cfg.manualDeclassifications))[i]? =
        some (resetRider cfg.manualDQs cfg.manualDeclassifications r0) := by
      rw [List.getElem?_map, hi0, Option.map_some']
    set rc := resetRider cfg.manualDQs cfg.manualDeclassifications r0 with hrc
    rcases assignFinish_pres hic with ⟨r1', hi1', hpr⟩
    have hr1 : r1' = r1 := by
      rw [hi1] at hi1'
      injection hi1' with h'
      exact h'.symm
    have hzr : r.zwiftId = r2.zwiftId := by rw [hr]
    have hz2 : r2.zwiftId = r1.zwiftId := hpres.1
    have hz1 : r1.zwiftId = rc.zwiftId := hr1 ▸ hpr.1
    have hz0 : rc.zwiftId = r0.zwiftId := (resetRider_fields _ _ r0).1
    have hdq0 : cfg.manualDQs.contains r0.zwiftId = true := by
      rw [← hz0, ← hz1, ← hz2, ← hzr]
      exact hdq
    have hfields := resetRider_fields cfg.manualDQs cfg.manualDeclassifications r0
    have hdqflag : rc.disqualified = true := by
      rw [hrc, hfields.2.2.2.2.1]
      exact hdq0
    have hdclflag : rc.declassified = false := by
      rw [hrc, hfields.2.2.2.2.2, hdq0]
      rfl
    have hdqfix := @assignFinish_dq sc.finishPointsScheme _ i rc hic hdclflag hdqflag
    have hr1rc : r1 = rc := by
      rw [hi1] at hdqfix
      injection hdqfix with h'
    have hfp1 : r1.finishPoints = 0 := by
      rw [hr1rc, hrc]
      exact hfields.2.2.1
    have hsp1 : r1.sprintPoints = 0 := by
      rw [hr1rc, hrc]
      exact hfields.2.2.2.1
    have hinv : (cfg.manualDQs.contains r1.zwiftId
        || cfg.manualDeclassifications.contains r1.zwiftId) = true := by
      rw [hz1, hz0, hdq0]
      rfl
    have hsp2 : r2.sprintPoints = 0 := by rw [hsp hinv, hsp1]
    have hfp2 : r2.finishPoints = 0 := by rw [hpres.2.2.2.2.1, hfp1]
    rw [hr]
    show r2.finishPoints + r2.sprintPoints = 0
    rw [hfp2, hsp2]
    rfl
  · intro riders cfg lrp r hne h hdq hexc
    unfold scorerCalcLeaguePoints at h
    rw [if_neg (by simpa using hne)] at h
    by_cases htt : cfg.rtype = "time-trial"
    · rw [if_pos htt] at h
      exact scorerTTLP_dq h hdq hexc
    · rw [if_neg htt] at h
      exact scorerPointsRaceLP_dq h hdq hexc
  · intro st riders rd cat rtype dqs dcl exc r hr hdq hexc
    exact engineRaceLP_dq hr hdq hexc

/-- C2 witness: a concrete DQ rider in a one-rider race scores
`totalPoints = 0`, gets `leaguePoints = 0` from the scorer with scheme
`[10]`, and is mapped to 0 by the engine's per-race league points. -/
theorem C2_witness :
    (∀ r ∈ calculateResults c3Sc [c2Rider] c2Cfg,
      c2Cfg.manualDQs.contains r.zwiftId = true → r.totalPoints = 0) ∧
    (∀ r ∈ scorerCalcLeaguePoints [c2Rider] c2Cfg [10],
      c2Cfg.manualDQs.contains r.zwiftId = true →
      c2Cfg.manualExclusions.contains r.zwiftId = false →
      r.leaguePoints = some 0) ∧
    lookupKey "Q" (engineRaceLP {} [c2Rider] c2Cfg "A" "scratch" ["Q"] [] []) = some 0 := by
  refine ⟨?_, ?_, ?_⟩
  · intro r hr hdq
    exact C2_theorem.1 c3Sc [c2Rider] c2Cfg r hr hdq
  · intro r hr hdq hexc
    exact C2_theorem.2.1 [c2Rider] c2Cfg [10] r (by decide) hr hdq hexc
  · exact C2_theorem.2.2 {} [c2Rider] c2Cfg "A" "scratch" ["Q"] [] [] c2Rider
      (by decide) (by decide) (by decide)

/-- C2 counterexample: with an *empty* `leagueRankPoints` scheme the
scorer's `calculate_league_points` sets the DQ rider's `leaguePoints` to
`None`, not 0, contradicting the claim's "for both an empty and a
non-empty leagueRankPoints scheme". -/
theorem C2_counterexample :
    c2Out.map Rider.leaguePoints = [none] ∧
    ¬ c2Out.map Rider.leaguePoints = [some 0] := by
  decide

/-! ### Claim theorems: C4 and C6 -/

/-- C4 (amended): the *race scorer* routes scratch races through the
points-race league ranking (its `calculate_league_points` treats
`scratch` and `points` identically), but the *league engine* does not:
its scratch path ranks only finishers, by finish time ascending, as the
concrete counterexample shows. -/
theorem C4_theorem (riders : List Rider) (cfg : RaceData) (lrp : List Int) :
    scorerCalcLeaguePoints riders { cfg with rtype := "scratch" } lrp =
      scorerCalcLeaguePoints riders { cfg with rtype := "points" } lrp := by
  unfold scorerCalcLeaguePoints
  by_cases h : lrp.isEmpty
  · rw [if_pos h, if_pos h]
  · rw [if_neg h, if_neg h]
    have h1 : ({ cfg with rtype := "scratch" } : RaceData).rtype = "scratch" := rfl
    have h2 : ({ cfg with rtype := "points" } : RaceData).rtype = "points" := rfl
    rw [if_neg (by rw [h1]; decide), if_neg (by rw [h2]; decide)]

/-- C4 counterexample: in the league engine's scratch ranking, rider A
(finishTime 100, totalPoints 5) beats rider B (finishTime 200,
totalPoints 10) and sprint-only rider S is not a candidate at all —
contradicting the claimed points-race ordering (B first, S ranked).
Declassified finishers are forced last: declassified D (finishTime 100)
ranks after the slower valid finisher V (finishTime 200). -/
theorem C4_counterexample :
    (lookupKey "A" c4Scratch = some 10 ∧ lookupKey "B" c4Scratch = some 6 ∧
      lookupKey "S" c4Scratch = none ∧
      ¬ (lookupKey "B" c4Scratch = some 10 ∧ lookupKey "A" c4Scratch = some 6 ∧
         lookupKey "S" c4Scratch = some 4)) ∧
    (lookupKey "V" c4Dcl = some 10 ∧ lookupKey "D" c4Dcl = some 6) := by
  decide

/-- C6 (amended): at the spec's scenario (splits S1,S2,S3; A reached
S2@500, B reached S3@900, C reached S2@400) both time-trial
implementations produce the league order B, C, A — among riders stranded
at the same split the *earlier* worldTime ranks first, so C precedes A. -/
theorem C6_theorem :
    lookupKey "B" c6Engine = some 10 ∧ lookupKey "C" c6Engine = some 8 ∧
    lookupKey "A" c6Engine = some 6 ∧
    c6Scorer.map (fun r => (r.zwiftId, r.leaguePoints)) =
      [("A", some 6), ("B", some 10), ("C", some 8)] := by
  decide

/-- C6 counterexample: the claimed order B, A, C (A second with 8
points, C third with 6) does not hold on the engine's output. -/
theorem C6_counterexample :
    ¬ (lookupKey "A" c6Engine = some 8 ∧ lookupKey "C" c6Engine = some 6) := by
  decide

/-! ### Claim theorems: C9 -/

/-- C9 (amended): the engine never raises on malformed configuration —
an unknown `raceConfig.type` silently falls through to the points-race
ranking in both the scorer and the league engine, a negative
`bestRacesCount` is consumed silently with Python slice semantics (see
the counterexample), and missing timing data never prevents
`calculate_results` from returning a complete result list (one entry per
non-excluded rider). -/
theorem C9_theorem :
    (∀ (riders : List Rider) (cfg : RaceData) (lrp : List Int),
      cfg.rtype ≠ "time-trial" →
      scorerCalcLeaguePoints riders cfg lrp =
        scorerCalcLeaguePoints riders { cfg with rtype := "points" } lrp) ∧
    (∀ (st : LeagueSettings) (riders : List Rider) (rd : RaceData) (cat rtype : String)
      (dqs dcl exc : List String),
      rtype ≠ "time-trial" → rtype ≠ "scratch" →
      engineRaceLP st riders rd cat rtype dqs dcl exc =
        engineRaceLP st riders rd cat "points" dqs dcl exc) ∧
    (∀ (sc : RaceScorer) (riders : List Rider) (cfg : RaceData),
      (calculateResults sc riders cfg).length =
        (riders.filter (fun x => !(cfg.manualExclusions.contains x.zwiftId))).length) := by
  refine ⟨?_, ?_, ?_⟩
  · intro riders cfg lrp h1
    unfold scorerCalcLeaguePoints
    by_cases h : lrp.isEmpty
    · rw [if_pos h, if_pos h]
    · have h2 : ({ cfg with rtype := "points" } : RaceData).rtype = "points" := rfl
      rw [if_neg h, if_neg h, if_neg h1, if_neg (by rw [h2]; decide)]
  · intro st riders rd cat rtype dqs dcl exc h1 h2
    unfold engineRaceLP
    by_cases h : st.leagueRankPoints.isEmpty
    · rw [if_pos h, if_pos h]
    · rw [if_neg h, if_neg h, if_neg h1, if_neg h2, if_neg (by decide), if_neg (by decide)]
  · intro sc riders cfg
    unfold calculateResults
    rw [List.length_insertionSort, List.length_map, calcSprintPoints_length,
        assignFinish_length, List.length_map]

/-- C9 witness: the unknown race type `funky` is silently scored as a
points race by both implementations, and `calculate_results` returns a
complete result on a rider list with no timing data beyond a finish. -/
theorem C9_witness :
    (scorerCalcLeaguePoints c9Riders c9WeirdCfg [7, 5] =
      scorerCalcLeaguePoints c9Riders { c9WeirdCfg with rtype := "points" } [7, 5]) ∧
    (engineRaceLP { leagueRankPoints := [7] } c9Riders ({} : RaceData) "A" "funky" [] [] [] =
      engineRaceLP { leagueRankPoints := [7] } c9Riders ({} : RaceData) "A" "points" [] [] []) ∧
    (calculateResults c3Sc c9Riders ({} : RaceData)).length =
      (c9Riders.filter (fun x =>
        !((({} : RaceData)).manualExclusions.contains x.zwiftId))).length := by
  refine ⟨?_, ?_, ?_⟩
  · exact C9_theorem.1 c9Riders c9WeirdCfg [7, 5] (by decide)
  · exact C9_theorem.2.1 { leagueRankPoints := [7] } c9Riders ({} : RaceData) "A" "funky"
      [] [] [] (by decide) (by decide)
  · exact C9_theorem.2.2 c3Sc c9Riders ({} : RaceData)

/-- C9 counterexample: a negative `bestRacesCount = -1` is accepted
silently — `calculate_standings` returns a normal table whose
`totalPoints` follows Python's `l[:-1]` slice (10, the best of the two
races, instead of any error); an unknown race type `funky` likewise
yields normal points-race league points instead of an error. -/
theorem C9_counterexample :
    ((lookupKey "A" c9Standings).map (fun es => es.map (fun e => (e.zwiftId, e.totalPoints))))
      = some [("R", 10)] ∧
    (scorerCalcLeaguePoints c9Riders c9WeirdCfg [7, 5]).map Rider.leaguePoints = [some 7] := by
  decide

/-! ### Claim theorems: C5 -/

theorem engineFallbackLP_lookup (fps : List Int) (riders : List Rider)
    (dqs dcl exc : List String) (r : Rider)
    (hnd : (riders.map Rider.zwiftId).Nodup) (hr : r ∈ riders) :
    lookupKey r.zwiftId (engineFallbackLP fps riders dqs dcl exc) =
      (if exc.contains r.zwiftId then none
       else if dqs.contains r.zwiftId then some 0
       else if dcl.contains r.zwiftId then
         some (fps.getD ((riders.filter (fun x =>
           !(dqs.contains x.zwiftId) && !(dcl.contains x.zwiftId))).length) 0)
       else if decide (0 < r.totalPoints) || decide (0 < r.finishTime)
               || !r.sprintData.isEmpty then some r.totalPoints
       else none) := by
  rcases List.append_of_mem hr with ⟨pre, post, heq⟩
  subst heq
  rw [List.map_append, List.map_cons] at hnd
  have h1 := List.nodup_middle.mp hnd
  rw [List.nodup_cons] at h1
  have hpre : ∀ x ∈ pre, x.zwiftId ≠ r.zwiftId := by
    intro x hx he
    exact h1.1 (List.mem_append_left _ (he ▸ List.mem_map_of_mem Rider.zwiftId hx))
  have hpost : ∀ x ∈ post, x.zwiftId ≠ r.zwiftId := by
    intro x hx he
    exact h1.1 (List.mem_append_right _ (he ▸ List.mem_map_of_mem Rider.zwiftId hx))
  unfold engineFallbackLP
  have hF : ∀ (res : List (String × Int)) (x : Rider),
      (fun res x =>
        if exc.contains x.zwiftId then res
        else if dqs.contains x.zwiftId then setKey x.zwiftId 0 res
        else if dcl.contains x.zwiftId then
          setKey x.zwiftId (fps.getD (((pre ++ r :: post).filter (fun x =>
            !(dqs.contains x.zwiftId) && !(dcl.contains x.zwiftId))).length) 0) res
        else if decide (0 < x.totalPoints) || decide (0 < x.finishTime)
                || !x.sprintData.isEmpty then
          setKey x.zwiftId x.totalPoints res
        else res : List (String × Int) → Rider → List (String × Int)) res x = res ∨
      ∃ v, (fun res x =>
        if exc.contains x.zwiftId then res
        else if dqs.contains x.zwiftId then setKey x.zwiftId 0 res
        else if dcl.contains x.zwiftId then
          setKey x.zwiftId (fps.getD (((pre ++ r :: post).filter (fun x =>
            !(dqs.contains x.zwiftId) && !(dcl.contains x.zwiftId))).length) 0) res
        else if decide (0 < x.totalPoints) || decide (0 < x.finishTime)
                || !x.sprintData.isEmpty then
          setKey x.zwiftId x.totalPoints res
        else res : List (String × Int) → Rider → List (String × Int)) res x
          = setKey x.zwiftId v res := by
    intro res x
    dsimp only
    by_cases t1 : exc.contains x.zwiftId = true
    · rw [if_pos t1]
      exact Or.inl rfl
    · rw [if_neg t1]
      by_cases t2 : dqs.contains x.zwiftId = true
      · rw [if_pos t2]
        exact Or.inr ⟨0, rfl⟩
      · rw [if_neg t2]
        by_cases t3 : dcl.contains x.zwiftId = true
        · rw [if_pos t3]
          exact Or.inr ⟨_, rfl⟩
        · rw [if_neg t3]
          by_cases t4 : (decide (0 < x.totalPoints) || decide (0 < x.finishTime)
              || !x.sprintData.isEmpty) = true
          · rw [if_pos t4]
            exact Or.inr ⟨_, rfl⟩
          · rw [if_neg t4]
            exact Or.inl rfl
  rw [foldl_step_split hF hpost []]
  have hbase : lookupKey r.zwiftId (pre.foldl _ []) = none :=
    (foldl_step_pres hF pre [] hpre).trans rfl
  by_cases t1 : exc.contains r.zwiftId = true
  · rw [if_pos t1, if_pos t1]
    exact hbase
  · rw [if_neg t1, if_neg t1]
    by_cases t2 : dqs.contains r.zwiftId = true
    · rw [if_pos t2, if_pos t2]
      exact lookupKey_setKey_self _ _ _
    · rw [if_neg t2, if_neg t2]
      by_cases t3 : dcl.contains r.zwiftId = true
      · rw [if_pos t3, if_pos t3]
        exact lookupKey_setKey_self _ _ _
      · rw [if_neg t3, if_neg t3]
        by_cases t4 : (decide (0 < r.totalPoints) || decide (0 < r.finishTime)
            || !r.sprintData.isEmpty) = true
        · rw [if_pos t4, if_pos t4]
          exact lookupKey_setKey_self _ _ _
        · rw [if_neg t4, if_neg t4]
          exact hbase

/-- C5 (amended): with an empty `leagueRankPoints` scheme the league
*engine* gives eligible riders `totalPoints`, DQ riders 0, excluded
riders no entry, and declassified riders
`finishPointsScheme[count of all non-DQ, non-declassified riders]` — a
count that includes DNF and inactive riders, not only finishers with
`finishTimeMs > 0`; the race *scorer*'s `calculate_league_points` with an
empty scheme instead sets `leaguePoints = None` for every rider. -/
theorem C5_theorem :
    (∀ (riders : List Rider) (cfg : RaceData),
      scorerCalcLeaguePoints riders cfg [] =
        riders.map (fun r => { r with leaguePoints := none })) ∧
    (∀ (fps : List Int) (riders : List Rider) (dqs dcl exc : List String) (r : Rider),
      (riders.map Rider.zwiftId).Nodup → r ∈ riders →
      lookupKey r.zwiftId (engineFallbackLP fps riders dqs dcl exc) =
        (if exc.contains r.zwiftId then none
         else if dqs.contains r.zwiftId then some 0
         else if dcl.contains r.zwiftId then
           some (fps.getD ((riders.filter (fun x =>
             !(dqs.contains x.zwiftId) && !(dcl.contains x.zwiftId))).length) 0)
         else if decide (0 < r.totalPoints) || decide (0 < r.finishTime)
                 || !r.sprintData.isEmpty then some r.totalPoints
         else none)) := by
  constructor
  · intro riders cfg
    rfl
  · intro fps riders dqs dcl exc r hnd hr
    exact engineFallbackLP_lookup fps riders dqs dcl exc r hnd hr

/-- C5 witness: for riders V1 (finisher, 10 points), V2 (DNF, inactive)
and declassified D, the engine's empty-scheme fallback maps D to
`finishPointsScheme[2] = 5` because the index counts the DNF rider V2. -/
theorem C5_witness :
    (scorerCalcLeaguePoints [c5V1] ({} : RaceData) [] =
      [c5V1].map (fun r => { r with leaguePoints := none })) ∧
    (([c5V1, c5V2, c5D].map Rider.zwiftId).Nodup ∧
      lookupKey "D" (engineFallbackLP [10, 7, 5] [c5V1, c5V2, c5D] [] ["D"] []) =
        (if ([] : List String).contains "D" then none
         else if ([] : List String).contains "D" then some 0
         else if (["D"] : List String).contains "D" then
           some (([10, 7, 5] : List Int).getD (([c5V1, c5V2, c5D].filter (fun x =>
             !(([] : List String).contains x.zwiftId)
               && !((["D"] : List String).contains x.zwiftId))).length) 0)
         else if decide (0 < c5D.totalPoints) || decide (0 < c5D.finishTime)
                 || !c5D.sprintData.isEmpty then some c5D.totalPoints
         else none)) := by
  refine ⟨C5_theorem.1 [c5V1] ({} : RaceData), by decide, ?_⟩
  exact C5_theorem.2 [10, 7, 5] [c5V1, c5V2, c5D] [] ["D"] [] c5D (by decide) (by decide)

/-- C5 counterexample: the engine maps declassified D to 5 =
`finishPointsScheme[2]` (the index counts the DNF rider V2), not the
claimed 7 = scheme value at the count of actual finishers; and the
scorer's `calculate_league_points` with an empty scheme gives the
eligible rider `None`, not `totalPoints`. -/
theorem C5_counterexample :
    lookupKey "D" c5Res = some 5 ∧ ¬ lookupKey "D" c5Res = some 7 ∧
    (scorerCalcLeaguePoints [c5V1] ({} : RaceData) []).map Rider.leaguePoints = [none] := by
  decide

/-! ### Claim theorems: C8 -/

theorem lookupKey_map_pair (F : α → β) (k : String) :
    ∀ (l : List (String × α)),
    lookupKey k (l.map (fun p => (p.1, F p.2))) = (lookupKey k l).map F := by
  intro l
  induction l with
  | nil => rfl
  | cons p t ih =>
    obtain ⟨k0, v⟩ := p
    by_cases h : k0 = k
    · simp [lookupKey, h]
    · simp [lookupKey, h, ih]

theorem finalizeEntry_totalPoints {n : Int} (hn : 0 ≤ n) (e : StandingsEntry) :
    (finalizeEntry n e).totalPoints = sumTopN n ((finalizeEntry n e).results.map Prod.snd) := by
  unfold finalizeEntry
  dsimp only
  have hsorted : List.Sorted resultsGe (List.insertionSort resultsGe e.results) :=
    List.sorted_insertionSort resultsGe e.results
  have hmapsorted : List.Sorted geInt ((List.insertionSort resultsGe e.results).map Prod.snd) :=
    List.Pairwise.map Prod.snd (fun a b h => h) hsorted
  have heqs : List.insertionSort geInt ((List.insertionSort resultsGe e.results).map Prod.snd)
      = (List.insertionSort resultsGe e.results).map Prod.snd :=
    List.eq_of_perm_of_sorted (List.perm_insertionSort geInt _)
      (List.sorted_insertionSort geInt _) hmapsorted
  unfold sumTopN
  rw [heqs]
  unfold pySliceTo
  rw [if_pos hn, List.map_take]

/-- C8: each standings entry's `totalPoints` is the sum of the
`bestRacesCount` largest per-race points in the rider's results list
(races beyond the best N stay recorded but do not count), and each
category's entries are sorted by `(totalPoints desc, lastRacePoints
desc)`. -/
theorem C8_theorem (st : LeagueSettings) (races : List RaceData)
    (override : Option (String × RaceData)) (cat : String) (entries : List StandingsEntry)
    (hn : 0 ≤ st.bestRacesCount)
    (hlk : lookupKey cat (calculateStandings st races override) = some entries) :
    List.Sorted standingsGe entries ∧
    ∀ e ∈ entries, e.totalPoints = sumTopN st.bestRacesCount (e.results.map Prod.snd) := by
  unfold calculateStandings at hlk
  have hmv := lookupKey_map_pair (fun d : List (String × StandingsEntry) =>
      List.insertionSort standingsGe (d.map (fun p => finalizeEntry st.bestRacesCount p.2)))
    cat (races.foldl (processRace st override) [])
  have hlk2 := hmv.symm.trans hlk
  rcases Option.map_eq_some'.mp hlk2 with ⟨d, _, hent⟩
  constructor
  · rw [← hent]
    exact List.sorted_insertionSort standingsGe _
  · intro e he
    rw [← hent] at he
    have he2 := (List.mem_insertionSort standingsGe).mp he
    rcases List.mem_map.mp he2 with ⟨p, _, hpe⟩
    rw [← hpe]
    exact finalizeEntry_totalPoints hn p.2

/-- C8 witness: the best-of-5 scenario — per-race league points
`[20,18,15,10,5,0]` with `bestRacesCount = 5` yield `totalPoints = 68`,
and the entry satisfies the sum-of-top-N and sortedness properties. -/
theorem C8_witness :
    (0 ≤ c8St.bestRacesCount ∧
      lookupKey "A" (calculateStandings c8St c8Races none) = some c8Entries) ∧
    (List.Sorted standingsGe c8Entries ∧
      ∀ e ∈ c8Entries, e.totalPoints = sumTopN c8St.bestRacesCount (e.results.map Prod.snd)) ∧
    c8Entries.map StandingsEntry.totalPoints = [68] := by
  refine ⟨⟨by decide, by decide⟩, ?_, by decide⟩
  exact C8_theorem c8St c8Races none "A" c8Entries (by decide) (by decide)

/-! ### Claim theorems: C3 -/

theorem calculateResults_not_excluded {sc : RaceScorer} {riders : List Rider} {cfg : RaceData}
    {r : Rider} (h : r ∈ calculateResults sc riders cfg) :
    cfg.manualExclusions.contains r.zwiftId = false := by
  rcases calculateResults_chain h with ⟨i, r0, r1, r2, hi0, hi1, hi2, hpres, hsp, hr⟩
  have hic : ((riders.filter (fun x => !(cfg.manualExclusions.contains x.zwiftId))).map
      (resetRider cfg.manualDQs cfg.manualDeclassifications))[i]? =
      some (resetRider cfg.manualDQs cfg.manualDeclassifications r0) := by
    rw [List.getElem?_map, hi0, Option.map_some']
  rcases assignFinish_pres hic with ⟨r1', hi1', hpr⟩
  have hr1 : r1' = r1 := by
    rw [hi1] at hi1'
    injection hi1' with h'
    exact h'.symm
  have hz1 : r1.zwiftId = (resetRider cfg.manualDQs cfg.manualDeclassifications r0).zwiftId := by
    rw [← hr1]
    exact hpr.1
  have hz : r.zwiftId = r0.zwiftId := by
    rw [hr]
    show r2.zwiftId = r0.zwiftId
    rw [hpres.1, hz1,
      (resetRider_fields cfg.manualDQs cfg.manualDeclassifications r0).1]
  have hr0mem : r0 ∈ riders.filter (fun x => !(cfg.manualExclusions.contains x.zwiftId)) :=
    List.getElem?_mem hi0
  have hact := (List.mem_filter.mp hr0mem).2
  rw [hz]
  simpa using hact

theorem processRider_excl_inv {raceId : String} {raceDate : Option Int}
    {lpMap : List (String × Int)} {exc : List String} {zid : String}
    (hz : exc.contains zid = true)
    {d : List (String × StandingsEntry)} (hd : ∀ p ∈ d, p.2.zwiftId ≠ zid)
    (r : Rider) :
    ∀ p ∈ processRider raceId raceDate lpMap exc d r, p.2.zwiftId ≠ zid := by
  intro p hp
  unfold processRider at hp
  by_cases hc : exc.contains r.zwiftId = true
  · rw [if_pos hc] at hp
    exact hd p hp
  · rw [if_neg hc] at hp
    have hrz : r.zwiftId ≠ zid := fun he => hc (by rw [he]; exact hz)
    cases hlp : lookupKey r.zwiftId lpMap with
    | none =>
      rw [hlp] at hp
      exact hd p hp
    | some pts =>
      rw [hlp] at hp
      rcases mem_setKey hp with hpe | hpd
      · rw [hpe]
        have he0 : (match lookupKey r.zwiftId d with
            | some e => e
            | none => (⟨r.zwiftId, r.name, 0, 0, [], 0, none⟩ : StandingsEntry)).zwiftId
            ≠ zid := by
          cases hld : lookupKey r.zwiftId d with
          | some e => exact hd _ (lookupKey_mem hld)
          | none => exact hrz
        split
        · exact he0
        · split
          · exact he0
          · split
            · exact he0
            · exact he0
      · exact hd p hpd

theorem foldRiders_excl_inv {raceId : String} {raceDate : Option Int}
    {lpMap : List (String × Int)} {exc : List String} {zid : String}
    (hz : exc.contains zid = true) :
    ∀ (rs : List Rider) (d : List (String × StandingsEntry)),
      (∀ p ∈ d, p.2.zwiftId ≠ zid) →
      ∀ p ∈ rs.foldl (processRider raceId raceDate lpMap exc) d, p.2.zwiftId ≠ zid := by
  intro rs
  induction rs with
  | nil => intro d hd; exact hd
  | cons r t ih =>
    intro d hd
    exact ih _ (processRider_excl_inv hz hd r)

theorem foldCats_excl_inv {rid : String} {rdt : Option Int} {rd : RaceData}
    {st : LeagueSettings} {rtype : String} {dqs dcl exc : List String} {zid : String}
    (hz : exc.contains zid = true) :
    ∀ (crs : List (String × List Rider)) (tbl : List (String × List (String × StandingsEntry))),
      (∀ cd ∈ tbl, ∀ p ∈ cd.2, p.2.zwiftId ≠ zid) →
      ∀ cd ∈ crs.foldl (fun tbl cr =>
          setKey cr.1
            (cr.2.foldl (processRider rid rdt
                (engineRaceLP st cr.2 rd cr.1 rtype dqs dcl exc) exc)
              ((lookupKey cr.1 tbl).getD []))
            tbl) tbl,
        ∀ p ∈ cd.2, p.2.zwiftId ≠ zid := by
  intro crs
  induction crs with
  | nil => intro tbl ht; exact ht
  | cons cr t ih =>
    intro tbl ht
    refine ih _ ?_
    intro cd hcd p hp
    rcases mem_setKey hcd with hce | hcm
    · have hd0 : ∀ q ∈ (lookupKey cr.1 tbl).getD ([] : List (String × StandingsEntry)),
          q.2.zwiftId ≠ zid := by
        cases hlk : lookupKey cr.1 tbl with
        | none => intro q hq; exact absurd hq (List.not_mem_nil q)
        | some dd => intro q hq; exact ht _ (lookupKey_mem hlk) q hq
      have hinner := @foldRiders_excl_inv rid rdt
        (engineRaceLP st cr.2 rd cr.1 rtype dqs dcl exc) exc zid hz cr.2
        ((lookupKey cr.1 tbl).getD []) hd0
      rw [hce] at hp
      exact hinner p hp
    · exact ht cd hcm p hp

theorem processRace_excl_inv {st : LeagueSettings} {override : Option (String × RaceData)}
    {zid : String} {race : RaceData}
    (hz : (effectiveRace override race).manualExclusions.contains zid = true)
    {table : List (String × List (String × StandingsEntry))}
    (ht : ∀ cd ∈ table, ∀ p ∈ cd.2, p.2.zwiftId ≠ zid) :
    ∀ cd ∈ processRace st override table race, ∀ p ∈ cd.2, p.2.zwiftId ≠ zid := by
  intro cd hcd
  simp only [processRace] at hcd
  by_cases hres : (effectiveRace override race).results.isEmpty = true
  · rw [if_pos hres] at hcd
    exact ht cd hcd
  · rw [if_neg hres] at hcd
    exact foldCats_excl_inv hz _ table ht cd hcd

theorem foldRaces_excl_inv {st : LeagueSettings} {override : Option (String × RaceData)}
    {zid : String} :
    ∀ (races : List RaceData) (table : List (String × List (String × StandingsEntry))),
      (∀ rd ∈ races, (effectiveRace override rd).manualExclusions.contains zid = true) →
      (∀ cd ∈ table, ∀ p ∈ cd.2, p.2.zwiftId ≠ zid) →
      ∀ cd ∈ races.foldl (processRace st override) table, ∀ p ∈ cd.2, p.2.zwiftId ≠ zid := by
  intro races
  induction races with
  | nil => intro table _ ht; exact ht
  | cons rc t ih =>
    intro table hexc ht
    exact ih _ (fun rd h => hexc rd (List.mem_cons_of_mem _ h))
      (processRace_excl_inv (hexc rc (List.mem_cons_self _ _)) ht)

/-- C3: the exclusion invariant. Every rider of the result list of
`calculate_results` has an id outside `manualExclusions`; and a rider id
listed in the `manualExclusions` of every (override-substituted) race
never appears as the `zwiftId` of any category's standings entry of
`calculate_standings`. -/
theorem C3_theorem (sc : RaceScorer) (riders : List Rider) (cfg : RaceData)
    (st : LeagueSettings) (races : List RaceData) (override : Option (String × RaceData))
    (zid : String)
    (hexc : ∀ rd ∈ races, (effectiveRace override rd).manualExclusions.contains zid = true) :
    (∀ r ∈ calculateResults sc riders cfg,
      cfg.manualExclusions.contains r.zwiftId = false) ∧
    (∀ ce ∈ calculateStandings st races override, ∀ e ∈ ce.2, e.zwiftId ≠ zid) := by
  constructor
  · intro r h
    exact calculateResults_not_excluded h
  · intro ce hce e he
    unfold calculateStandings at hce
    rcases List.mem_map.mp hce with ⟨cd, hcd, hcde⟩
    rw [← hcde] at he
    simp only [List.mem_insertionSort, List.mem_map] at he
    rcases he with ⟨p, hp, hpe⟩
    have hinv := foldRaces_excl_inv races [] hexc
      (fun c hc => absurd hc (List.not_mem_nil c)) cd hcd p hp
    rw [← hpe]
    exact hinv

/-- C3 witness: in the concrete scenario, rider `X` is excluded in the
race config and in the single standings race; `X` appears neither in the
scorer's result list nor in the standings entries of category `A` (whose
entry list is the non-empty `c3Entries`, containing rider `Y`). -/
theorem C3_witness :
    (∀ rd ∈ c3Races, (effectiveRace none rd).manualExclusions.contains "X" = true) ∧
    ((∀ r ∈ calculateResults c3Sc c3Riders c3Cfg,
        c3Cfg.manualExclusions.contains r.zwiftId = false) ∧
      (∀ ce ∈ calculateStandings c3St c3Races none, ∀ e ∈ ce.2, e.zwiftId ≠ "X")) ∧
    lookupKey "A" (calculateStandings c3St c3Races none) = some c3Entries ∧
    c3Entries.map StandingsEntry.zwiftId = ["Y"] := by
  refine ⟨by decide, ?_, by decide, by decide⟩
  exact C3_theorem c3Sc c3Riders c3Cfg c3St c3Races none "X" (by decide)

/-! ### Claim theorems: C7 -/

theorem getD_anti_of_sorted {scheme : List Int} (hs : List.Sorted geInt scheme)
    (hpos : ∀ x ∈ scheme, 0 ≤ x) {a b : Nat} (hab : a ≤ b) :
    scheme.getD b 0 ≤ scheme.getD a 0 := by
  by_cases hb : b < scheme.length
  · have ha : a < scheme.length := lt_of_le_of_lt hab hb
    rw [List.getD_eq_getElem scheme 0 hb, List.getD_eq_getElem scheme 0 ha]
    rcases eq_or_lt_of_le hab with heq | hlt
    · subst heq
      exact le_refl _
    · exact List.pairwise_iff_getElem.mp hs a b ha hb hlt
  · push_neg at hb
    rw [List.getD_eq_default scheme 0 hb]
    by_cases ha : a < scheme.length
    · rw [List.getD_eq_getElem scheme 0 ha]
      exact hpos _ (List.getElem_mem ha)
    · push_neg at ha
      rw [List.getD_eq_default scheme 0 ha]

theorem calculateResults_finish_src {sc : RaceScorer} {riders : List Rider} {cfg : RaceData}
    {r : Rider} (h : r ∈ calculateResults sc riders cfg) :
    ∃ (i : Nat) (rc r1 : Rider),
      ((riders.filter (fun x => !(cfg.manualExclusions.contains x.zwiftId))).map
        (resetRider cfg.manualDQs cfg.manualDeclassifications))[i]? = some rc ∧
      (assignFinish sc.finishPointsScheme
        ((riders.filter (fun x => !(cfg.manualExclusions.contains x.zwiftId))).map
          (resetRider cfg.manualDQs cfg.manualDeclassifications)))[i]? = some r1 ∧
      r.finishPoints = r1.finishPoints ∧
      r.finishTime = rc.finishTime ∧
      r.disqualified = rc.disqualified ∧
      r.declassified = rc.declassified := by
  rcases calculateResults_chain h with ⟨i, r0, r1, r2, hi0, hi1, hi2, hpres, hsp, hr⟩
  have hic : ((riders.filter (fun x => !(cfg.manualExclusions.contains x.zwiftId))).map
      (resetRider cfg.manualDQs cfg.manualDeclassifications))[i]? =
      some (resetRider cfg.manualDQs cfg.manualDeclassifications r0) := by
    rw [List.getElem?_map, hi0, Option.map_some']
  rcases assignFinish_pres hic with ⟨r1', hi1', hpr⟩
  have hr1 : r1' = r1 := by
    rw [hi1] at hi1'
    injection hi1' with h'
    exact h'.symm
  rw [hr1] at hpr
  refine ⟨i, resetRider cfg.manualDQs cfg.manualDeclassifications r0, r1, hic, hi1,
    ?_, ?_, ?_, ?_⟩
  · rw [hr]
    show r2.finishPoints = _
    exact hpres.2.2.2.2.1
  · rw [hr]
    show r2.finishTime = _
    rw [hpres.2.2.1, hpr.2.2.1]
  · rw [hr]
    show r2.disqualified = _
    rw [hpres.2.2.2.2.2.1, hpr.2.2.2.1]
  · rw [hr]
    show r2.declassified = _
    rw [hpres.2.2.2.2.2.2.1, hpr.2.2.2.2.1]

/-- C7 (amended): under a non-increasing, non-negative
`finishPointsScheme` and finish times below the DNF sentinel, every
declassified rider of the result list gets `finishPoints` equal to the
scheme value at the index `last_valid_rank` (one place below the last
valid finisher), which is at most every valid finisher's `finishPoints`.
For a scheme that is not non-increasing the bound fails (see the
counterexample). -/
theorem C7_theorem (sc : RaceScorer) (riders : List Rider) (cfg : RaceData)
    (hsent : ∀ r ∈ riders, r.finishTime < dnfSentinel)
    (hanti : List.Sorted geInt sc.finishPointsScheme)
    (hpos : ∀ x ∈ sc.finishPointsScheme, 0 ≤ x) :
    ∀ d ∈ calculateResults sc riders cfg, d.declassified = true →
      d.finishPoints = sc.finishPointsScheme.getD
        (lastValidRank ((riders.filter (fun x => !(cfg.manualExclusions.contains x.zwiftId))).map
          (resetRider cfg.manualDQs cfg.manualDeclassifications))) 0 ∧
      ∀ v ∈ calculateResults sc riders cfg, isValidR v = true → 0 < v.finishTime →
        d.finishPoints ≤ v.finishPoints := by
  intro d hd hdcl
  rcases calculateResults_finish_src hd with ⟨i, rc, r1, hic, hi1, hfp, hft, hdq, hdc⟩
  have hrcdcl : rc.declassified = true := by
    rw [← hdc]
    exact hdcl
  have hdecl := @assignFinish_declass sc.finishPointsScheme _ i rc hic hrcdcl
  rw [hi1] at hdecl
  injection hdecl with h1
  have hdfp : d.finishPoints = sc.finishPointsScheme.getD
      (lastValidRank ((riders.filter (fun x => !(cfg.manualExclusions.contains x.zwiftId))).map
        (resetRider cfg.manualDQs cfg.manualDeclassifications))) 0 := by
    rw [hfp, h1]
  refine ⟨hdfp, ?_⟩
  intro v hv hval hvt
  rcases calculateResults_finish_src hv with ⟨i2, rc2, s1, hic2, hi12, hfp2, hft2, hdq2, hdc2⟩
  have hvflags : v.disqualified = false ∧ v.declassified = false := by
    rw [isValidR, Bool.and_eq_true, Bool.not_eq_true', Bool.not_eq_true'] at hval
    exact hval
  have hval2 : isValidR rc2 = true := by
    rw [isValidR, ← hdq2, ← hdc2, hvflags.1, hvflags.2]
    rfl
  have hft2' : 0 < rc2.finishTime := by
    rw [← hft2]
    exact hvt
  have hsentC : ∀ r ∈ (riders.filter (fun x => !(cfg.manualExclusions.contains x.zwiftId))).map
      (resetRider cfg.manualDQs cfg.manualDeclassifications), r.finishTime < dnfSentinel := by
    intro r hrm
    rcases List.mem_map.mp hrm with ⟨r0, hr0, hr0e⟩
    have he : r.finishTime = r0.finishTime := by
      rw [← hr0e]
      exact (resetRider_fields cfg.manualDQs cfg.manualDeclassifications r0).2.1
    rw [he]
    exact hsent r0 (List.mem_of_mem_filter hr0)
  rcases assignFinish_valid_points hsentC hic2 hval2 hft2' with ⟨j, hjlt, hj⟩
  rw [hi12] at hj
  injection hj with h2
  have hvfp : v.finishPoints = sc.finishPointsScheme.getD j 0 := by
    rw [hfp2, h2]
  rw [hdfp, hvfp]
  exact getD_anti_of_sorted hanti hpos (Nat.le_of_lt hjlt)

/-- C7 counterexample: with the increasing scheme `[1, 10]`, the
declassified rider `D` gets `finishPoints = 10` while the valid finisher
`X` gets `1`, refuting the unconditional bound
`d.finishPoints <= v.finishPoints` of the claim. -/
theorem C7_counterexample :
    ∃ d ∈ c7Out, ∃ v ∈ c7Out, d.declassified = true ∧ isValidR v = true ∧
      0 < v.finishTime ∧ v.finishPoints < d.finishPoints := by
  decide

/-- C7 witness: with the non-increasing scheme `[10, 7]`, valid finisher
`X` gets 10, declassified `D` gets `scheme[last_valid_rank] = 7`, and the
amended bound holds. -/
theorem C7_witness :
    ((∀ r ∈ [c7X, c7D], r.finishTime < dnfSentinel) ∧
      List.Sorted geInt c7wSc.finishPointsScheme ∧
      (∀ x ∈ c7wSc.finishPointsScheme, 0 ≤ x)) ∧
    (∀ d ∈ calculateResults c7wSc [c7X, c7D] c7Cfg, d.declassified = true →
      d.finishPoints = c7wSc.finishPointsScheme.getD
        (lastValidRank (([c7X, c7D].filter
          (fun x => !(c7Cfg.manualExclusions.contains x.zwiftId))).map
          (resetRider c7Cfg.manualDQs c7Cfg.manualDeclassifications))) 0 ∧
      ∀ v ∈ calculateResults c7wSc [c7X, c7D] c7Cfg, isValidR v = true → 0 < v.finishTime →
        d.finishPoints ≤ v.finishPoints) ∧
    (calculateResults c7wSc [c7X, c7D] c7Cfg).map Rider.finishPoints = [10, 7] := by
  refine ⟨⟨by decide, by decide, by decide⟩, ?_, by decide⟩
  exact C7_theorem c7wSc [c7X, c7D] c7Cfg (by decide) (by decide) (by decide)

end DcuLiga
